import Mathlib

/-!
Verification development for the trello-daily-reset repository.

The Go sources are shallowly embedded: pure string manipulation from the
`strings` package is modelled over `List Char` / `String`, machine floats
(`float64` scores) are modelled as exact rationals `ℚ`, unix timestamps and
time instants as `ℤ`, and the Trello board state touched by a sync run as an
explicit list of cards threaded through a fold.  External collaborators
(HTTP fetches, `time.Parse`/`Format`) are passed in as function parameters
where their output feeds the logic under verification.
-/

namespace TrelloReset

/-- Embedding of Go `strings.Index` restricted to the use sites of this
repository: first index at which `sep` occurs in `s` (`none` when absent).
An empty `sep` matches at index 0, as in Go. -/
def goIndexOf (sep : List Char) : List Char → Option Nat
  | [] => if sep.isEmpty then some 0 else none
  | c :: t => if sep.isPrefixOf (c :: t) then some 0 else (goIndexOf sep t).map (· + 1)

/-- Embedding of Go `strings.Contains(s, sub)`. -/
def goContains (s sub : String) : Bool :=
  (goIndexOf sub.toList s.toList).isSome

/-- Embedding of Go `strings.HasPrefix(s, pre)`. -/
def goHasPrefix (s pre : String) : Bool :=
  pre.toList.isPrefixOf s.toList

/-- Embedding of Go `strings.TrimPrefix(s, pre)`: removes exactly one leading
occurrence of `pre`, when present. -/
def goTrimPrefix (s pre : String) : String :=
  if goHasPrefix s pre then String.mk (s.toList.drop pre.toList.length) else s

/-- Embedding of Go `strings.TrimSpace`.  Whitespace is modelled by
`Char.isWhitespace` (space, tab, CR, LF), which covers every character this
repository ever trims. -/
def goTrimSpace (s : String) : String :=
  String.mk (((s.toList.dropWhile Char.isWhitespace).reverse.dropWhile Char.isWhitespace).reverse)

/-- Embedding of Go `strings.ToLower`.  `Char.toLower` lowers the ASCII
range, which covers the board/list/course names this repository handles. -/
def goToLower (s : String) : String :=
  String.mk (s.toList.map Char.toLower)

/-- `normalizeString` from the search helpers:
`strings.ToLower(strings.TrimSpace(s))`. -/
def normalizeString (s : String) : String :=
  goToLower (goTrimSpace s)

/-- Worker for Go `strings.Split` with a nonempty separator: cut at the first
occurrence of `sep` and recurse on the remainder.  `fuel` dominates the
length of `s`, so it never runs out at the use sites. -/
def goSplitAux (sep : List Char) : Nat → List Char → List (List Char)
  | 0, s => [s]
  | fuel + 1, s =>
    match goIndexOf sep s with
    | none => [s]
    | some i => s.take i :: goSplitAux sep fuel (s.drop (i + sep.length))

/-- Embedding of Go `strings.Split(s, sep)` for the nonempty separators used
in this repository. -/
def goSplit (s sep : String) : List String :=
  (goSplitAux sep.toList (s.toList.length + 1) s.toList).map String.mk

/-- First index of a card satisfying `p`, as produced by the
`for i, card := range cards` loops of the finders. -/
def goFindIdx (p : α → Bool) : List α → Option Nat
  | [] => none
  | c :: t => if p c then some 0 else (goFindIdx p t).map (· + 1)

/-- Replace the element at index `i` (used to model a server-side card
update addressed by the card found at that position). -/
def modifyAt (l : List α) (i : Nat) (f : α → α) : List α :=
  match l, i with
  | [], _ => []
  | c :: t, 0 => f c :: t
  | c :: t, i + 1 => c :: modifyAt t i f

/-- Rendering of a nonnegative rational with one decimal digit, the shape Go
`fmt.Sprintf("%.1f", x)` produces for the scores handled here (rounding of a
half is immaterial to every claim). -/
def fmtFloat1 (q : ℚ) : String :=
  let n : Int := ⌊q * 10 + 1/2⌋
  toString (n / 10) ++ "." ++ toString ((n % 10).natAbs)

/-- Go `Board` struct (client.go): `{ID, Name, URL}`. -/
structure Board where
  id : String
  name : String
  url : String
deriving DecidableEq, Repr

/-- Go `List` struct (client.go): `{ID, Name, BoardID}`.  Named
`TrelloList` here because `List` is taken. -/
structure TrelloList where
  id : String
  name : String
  boardID : String
deriving DecidableEq, Repr

/-- Go `Card` struct (client.go), restricted to the fields the verified
logic reads or writes.  `Due *time.Time` is modelled as `Option ℤ`
(an instant in seconds); `URL`, `ShortURL`, `Closed`, `IDList` are carried
nowhere in the verified logic and are omitted. -/
structure Card where
  id : String
  name : String
  description : String
  due : Option Int
  dueComplete : Bool
deriving DecidableEq, Repr

/-- Go `CanvasAssignment` struct (Canvas client source).  `DueAt` stays a
raw string, exactly as in the struct: the sync path parses it on demand. -/
structure CanvasAssignment where
  id : Int
  name : String
  description : String
  dueAt : String
  courseID : Int
  htmlURL : String
deriving DecidableEq, Repr

/-- Go `CanvasSubmission` struct.  `Score *float64` becomes `Option ℚ`. -/
structure CanvasSubmission where
  score : Option ℚ
  grade : String
  workflowState : String
deriving DecidableEq, Repr

/-- Go `MoodleAssignment` struct (moodle.go).  The Go field `Type` (either
`"assignment"` or `"quiz"`) is spelled `atype` here. -/
structure MoodleAssignment where
  id : Int
  name : String
  intro : String
  courseID : Int
  dueDateUnix : Int
  url : String
  atype : String
deriving DecidableEq, Repr

/-- Go `MoodleGrade` struct (moodle.go); `float64` fields become `ℚ`. -/
structure MoodleGrade where
  grade : ℚ
  gradeMax : ℚ
  userID : Int
  itemID : Int
  percentage : ℚ
deriving DecidableEq, Repr

/-- `findBoardByName` (search helpers): exact pass over normalized names,
then a substring pass; the Go error return becomes `none`. -/
def findBoardByName (boards : List Board) (boardName : String) : Option Board :=
  let boardNameNorm := normalizeString boardName
  match boards.find? (fun board => normalizeString board.name == boardNameNorm) with
  | some board => some board
  | none => boards.find? (fun board => goContains (normalizeString board.name) boardNameNorm)

/-- `findListByName` (search helpers): same two passes, each additionally
requiring `list.BoardID == boardID`. -/
def findListByName (lists : List TrelloList) (boardID listName : String) : Option TrelloList :=
  let listNameNorm := normalizeString listName
  match lists.find? (fun l => l.boardID == boardID && normalizeString l.name == listNameNorm) with
  | some l => some l
  | none =>
    lists.find? (fun l => l.boardID == boardID && goContains (normalizeString l.name) listNameNorm)

/-- Search pattern of `FindCardByCanvasID`:
`fmt.Sprintf("Canvas %s ID: %d", canvasType, canvasID)`. -/
def canvasMarker (canvasType : String) (canvasID : Int) : String :=
  "Canvas " ++ canvasType ++ " ID: " ++ toString canvasID

/-- Search pattern of `FindCardByMoodleAssignmentID`:
`fmt.Sprintf("Moodle Assignment ID: %d", moodleID)`. -/
def moodleMarker (moodleID : Int) : String :=
  "Moodle Assignment ID: " ++ toString moodleID

/-- `FindCardByCanvasID` (client.go): first card whose description contains
the marker. -/
def findCardByCanvasID (cards : List Card) (canvasID : Int) (canvasType : String) : Option Card :=
  cards.find? (fun card => goContains card.description (canvasMarker canvasType canvasID))

/-- `FindCardByMoodleAssignmentID` (client.go). -/
def findCardByMoodleAssignmentID (cards : List Card) (moodleID : Int) : Option Card :=
  cards.find? (fun card => goContains card.description (moodleMarker moodleID))

/-- Grade line of `formatCanvasMetadata`: present score rendered as
`%.1f%%` plus a `" (REDO NEEDED)"` suffix below 90, otherwise
`"Not graded"`.  The raw score is used directly, with no maximum. -/
def canvasGradeString (submission : Option CanvasSubmission) : String :=
  match submission with
  | some s =>
    match s.score with
    | some sc => (fmtFloat1 sc ++ "%") ++ (if sc < 90 then " (REDO NEEDED)" else "")
    | none => "Not graded"
  | none => "Not graded"

/-- `formatCanvasMetadata` (Canvas client source): the metadata block
appended to a card description. -/
def formatCanvasMetadata (assignment : CanvasAssignment) (courseName : String)
    (submission : Option CanvasSubmission) : String :=
  "\n\n---\nCanvas Assignment ID: " ++ toString assignment.id ++
    "\nCourse: " ++ courseName ++
    "\nOriginal Due Date: " ++ assignment.dueAt ++
    "\nGrade: " ++ canvasGradeString submission ++
    "\nCanvas URL: " ++ assignment.htmlURL

/-- `stripCanvasMetadata`: split on the literal separator and keep the
first segment when a separator was found. -/
def stripCanvasMetadata (description : String) : String :=
  match goSplit description "\n\n---\n" with
  | a :: _ :: _ => a
  | _ => description

/-- `formatMoodleMetadata` (moodle.go).  `fmtTime` stands for
`time.Unix(u, 0).Format(time.RFC3339)`, an injectively rendered timestamp
supplied by the Go time package. -/
def formatMoodleMetadata (fmtTime : Int → String) (a : MoodleAssignment) (courseName : String)
    (grade : Option MoodleGrade) : String :=
  let due := if 0 < a.dueDateUnix then fmtTime a.dueDateUnix else ""
  let gradeStr :=
    match grade with
    | some g =>
      if 0 < g.gradeMax then
        (fmtFloat1 (g.grade / g.gradeMax * 100) ++ "%") ++
          (if g.grade / g.gradeMax * 100 < 90 then " (REDO NEEDED)" else "")
      else "Not graded"
    | none => "Not graded"
  let activityType := if a.atype == "quiz" then "Quiz" else "Assignment"
  "\n\n---\nMoodle " ++ activityType ++ " ID: " ++ toString a.id ++
    "\nCourse: " ++ courseName ++
    "\nOriginal Due Date: " ++ due ++
    "\nGrade: " ++ gradeStr ++
    "\nMoodle URL: " ++ a.url

/-- REDO test of `SyncCanvasAssignments`:
`submission != nil && submission.Score != nil && *submission.Score < 90`. -/
def canvasNeedsRedo (submission : Option CanvasSubmission) : Bool :=
  match submission with
  | some s =>
    match s.score with
    | some sc => decide (sc < 90)
    | none => false
  | none => false

/-- REDO test of `SyncMoodleAssignments`:
`grade != nil && grade.GradeMax > 0 && (grade.Grade/grade.GradeMax)*100 < 90`. -/
def moodleNeedsRedo (grade : Option MoodleGrade) : Bool :=
  match grade with
  | some g => decide (0 < g.gradeMax) && decide (g.grade / g.gradeMax * 100 < 90)
  | none => false

/-- Passing-grade skip of `SyncMoodleAssignments`:
`grade != nil && grade.GradeMax > 0` and percentage at least 90. -/
def moodlePassingSkip (grade : Option MoodleGrade) : Bool :=
  match grade with
  | some g => decide (0 < g.gradeMax) && decide (90 ≤ g.grade / g.gradeMax * 100)
  | none => false

/-- The title prefix rule shared verbatim by both sync loops: prepend
`"REDO - "` when needed and absent, strip one occurrence when not needed
and present. -/
def applyRedoPrefix (needsRedo : Bool) (cardTitle : String) : String :=
  if needsRedo && !goHasPrefix cardTitle "REDO - " then "REDO - " ++ cardTitle
  else if !needsRedo && goHasPrefix cardTitle "REDO - " then goTrimPrefix cardTitle "REDO - "
  else cardTitle

/-- Modelled from the spec: the REDO condition as §4.4 words it, for the
refinement comparison of claim C1 — grade present, maximum positive, and
percentage strictly below 90.  The grade is a `(score, maxScore)` pair. -/
def specNeedsRedo (grade : Option (ℚ × ℚ)) : Bool :=
  match grade with
  | some (s, m) => decide (0 < m) && decide (s / m * 100 < 90)
  | none => false

/-- `time.Now().AddDate(0, 0, 7)` on the instants model: seven
86400-second days ahead. -/
def addDays (t : Int) (n : Int) : Int :=
  t + n * 86400

/-- The card fields one iteration of the Canvas sync loop computes. -/
structure CanvasCardFields where
  title : String
  needsRedo : Bool
  description : String
  due : Option Int
deriving Repr

/-- Per-assignment field computation of `SyncCanvasAssignments`
(client.go).  `parse` stands for `time.Parse(time.RFC3339, ·)` with `none`
for a parse error, and the Trello date format conversion preserves the
instant, so the computed due date is the instant itself. -/
def canvasCardFields (parse : String → Option Int) (now : Int) (courseName : String)
    (a : CanvasAssignment) (submission : Option CanvasSubmission) : CanvasCardFields :=
  let needsRedo := canvasNeedsRedo submission
  let cardTitle := applyRedoPrefix needsRedo (courseName ++ " - " ++ a.name)
  let baseDescription := stripCanvasMetadata a.description
  let fullDescription := baseDescription ++ formatCanvasMetadata a courseName submission
  let dueDate : Option Int :=
    if needsRedo then some (addDays now 7)
    else if a.dueAt ≠ "" then parse a.dueAt
    else none
  ⟨cardTitle, needsRedo, fullDescription, dueDate⟩

/-- The card fields one iteration of the Moodle sync loop computes.
`skip` is the passing-grade short circuit. -/
structure MoodleCardFields where
  title : String
  needsRedo : Bool
  description : String
  due : Option Int
  skip : Bool
deriving Repr

/-- Per-assignment field computation of `SyncMoodleAssignments`
(client.go).  The grade lookup is the stubbed
`var grade *MoodleGrade` that the source never assigns, hence `none`.
`courseNames` models the Go map lookup with its `""` default. -/
def moodleCardFields (fmtTime : Int → String) (courseNames : Int → String)
    (a : MoodleAssignment) : MoodleCardFields :=
  let grade : Option MoodleGrade := none
  let courseName :=
    if courseNames a.courseID = "" then "Course " ++ toString a.courseID
    else courseNames a.courseID
  let skip := moodlePassingSkip grade
  let needsRedo := moodleNeedsRedo grade
  let cardTitle := applyRedoPrefix needsRedo (courseName ++ " - " ++ a.name)
  let fullDescription := goTrimSpace a.intro ++ formatMoodleMetadata fmtTime a courseName grade
  let dueDate : Option Int := if 0 < a.dueDateUnix then some a.dueDateUnix else none
  ⟨cardTitle, needsRedo, fullDescription, dueDate, skip⟩

/-- Board state threaded through a sync run.  `orig` is the snapshot
`allCards` fetched once before the loop and searched by the finders;
`updatedOrig` carries the server-side effect of `UpdateCard` /
`UpdateCardDescription` on those same cards; `created` collects the cards
made by `CreateCard`, in creation order. -/
structure SyncState where
  orig : List Card
  updatedOrig : List Card
  created : List Card
  descUpdates : Nat
  creates : Nat
deriving Repr

/-- Initial state of a sync run over the fetched card snapshot. -/
def SyncState.init (allCards : List Card) : SyncState :=
  ⟨allCards, allCards, [], 0, 0⟩

/-- The card list the board holds after a run (the next run's fetch). -/
def SyncState.cards (st : SyncState) : List Card :=
  st.updatedOrig ++ st.created

/-- One iteration of the Moodle sync loop (client.go), non-dry-run: find by
marker in the snapshot, then `UpdateCard` (due date, always) plus
`UpdateCardDescription` only when the snapshot description differs from the
computed one; otherwise `CreateCard`.  Card writes land on the server
state, searches and the description comparison use the snapshot. -/
def moodleProcessOne (fmtTime : Int → String) (courseNames : Int → String)
    (a : MoodleAssignment) (st : SyncState) : SyncState :=
  let f := moodleCardFields fmtTime courseNames a
  if f.skip then st
  else
    match goFindIdx (fun card => goContains card.description (moodleMarker a.id)) st.orig with
    | some i =>
      let snapshotDesc := ((st.orig.get? i).map Card.description).getD ""
      let changed := snapshotDesc ≠ f.description
      { st with
        updatedOrig := modifyAt st.updatedOrig i (fun c =>
          { c with
            due := f.due
            dueComplete := false
            description := if changed then f.description else c.description })
        descUpdates := if changed then st.descUpdates + 1 else st.descUpdates }
    | none =>
      { st with
        created := st.created ++ [⟨"", f.title, f.description, f.due, false⟩]
        creates := st.creates + 1 }

/-- `SyncMoodleAssignments` over a batch: fold of the per-assignment step
starting from the fetched snapshot. -/
def moodleRun (fmtTime : Int → String) (courseNames : Int → String)
    (assignments : List MoodleAssignment) (allCards : List Card) : SyncState :=
  assignments.foldl (fun st a => moodleProcessOne fmtTime courseNames a st)
    (SyncState.init allCards)

/-- One iteration of the Canvas sync loop (client.go): find by the
`"Canvas Assignment ID: <id>"` marker in the snapshot, then `UpdateCard`
(due date only — the source notes a name/description update helper is
missing); otherwise `CreateCard` with the computed fields. -/
def canvasProcessOne (parse : String → Option Int) (now : Int)
    (courseNameOf : Int → String) (submissionOf : Int → Option CanvasSubmission)
    (a : CanvasAssignment) (st : SyncState) : SyncState :=
  let f := canvasCardFields parse now (courseNameOf a.courseID) a (submissionOf a.id)
  match goFindIdx (fun card => goContains card.description (canvasMarker "Assignment" a.id)) st.orig with
  | some i =>
    { st with
      updatedOrig := modifyAt st.updatedOrig i (fun c =>
        { c with due := f.due, dueComplete := false }) }
  | none =>
    { st with
      created := st.created ++ [⟨"", f.title, f.description, f.due, false⟩]
      creates := st.creates + 1 }

/-- `SyncCanvasAssignments` over a batch. -/
def canvasRun (parse : String → Option Int) (now : Int)
    (courseNameOf : Int → String) (submissionOf : Int → Option CanvasSubmission)
    (assignments : List CanvasAssignment) (allCards : List Card) : SyncState :=
  assignments.foldl (fun st a => canvasProcessOne parse now courseNameOf submissionOf a st)
    (SyncState.init allCards)

/-- The comparator closure of `SortCardsByDueDate` (client.go): undated
pairs compare false, an undated left goes after, an undated right before,
dated pairs by `Before`. -/
def cardLess (cardI cardJ : Card) : Bool :=
  match cardI.due, cardJ.due with
  | none, none => false
  | none, some _ => false
  | some _, none => true
  | some dI, some dJ => decide (dI < dJ)

/-- A card list to which `sort.Slice` may legally evaluate: no later card
is strictly less than an earlier one.  This is the whole of the ordering
contract Go documents for `sort.Slice`; stability is explicitly not
guaranteed. -/
def sortedByCardLess : List Card → Bool
  | [] => true
  | [_] => true
  | a :: b :: t => !cardLess b a && sortedByCardLess (b :: t)

/-- Go `SunsetLocation` (moodle.go); `float64` coordinates as `ℚ`. -/
structure SunsetLocation where
  latitude : ℚ
  longitude : ℚ
deriving DecidableEq, Repr

/-- Go `SunsetCache` (moodle.go).  The `map[string]string` date-to-time
data becomes an association list; `CachedUntil time.Time` an instant. -/
structure SunsetCache where
  location : SunsetLocation
  cachedUntil : Int
  data : List (String × String)
deriving DecidableEq, Repr

/-- Lookup in the cache map: `cache.Data[dateStr]`. -/
def mapLookup (m : List (String × String)) (k : String) : Option String :=
  (m.find? (fun p => p.1 == k)).map (fun p => p.2)

/-- Overwriting store into the cache map: `cache.Data[k] = v`. -/
def mapSet (m : List (String × String)) (k v : String) : List (String × String) :=
  if (m.find? (fun p => p.1 == k)).isSome then
    m.map (fun p => if p.1 == k then (k, v) else p)
  else m ++ [(k, v)]

/-- `checkSunsetCache` (moodle.go).  `file` is the parsed cache file —
`none` when the file is absent or unmarshalling failed.  Returns the Go
`""` miss sentinel or the stored time.  The expiry test is the source's
`time.Now().After(cache.CachedUntil)`, i.e. a miss only when `now` is
strictly past `cachedUntil`. -/
def checkSunsetCache (file : Option SunsetCache) (now : Int) (dateStr : String)
    (lat lng : ℚ) : String :=
  match file with
  | none => ""
  | some cache =>
    if cache.location.latitude ≠ lat ∨ cache.location.longitude ≠ lng then ""
    else if cache.cachedUntil < now then ""
    else
      match mapLookup cache.data dateStr with
      | some sunsetTime => sunsetTime
      | none => ""

/-- `GetSundownTime` (moodle.go): return the cached time when the check
hits, otherwise fall through to the fetch-and-cache path, abstracted as
`fetch`. -/
def getSundownTime (fetch : Unit → Option String) (file : Option SunsetCache)
    (now : Int) (today : String) (lat lng : ℚ) : Option String :=
  let cachedTime := checkSunsetCache file now today lat lng
  if cachedTime ≠ "" then some cachedTime else fetch ()

/-- One row of the sunrisesunset.io batch response. -/
structure SunsetApiResult where
  date : String
  sunset : String
deriving DecidableEq, Repr

/-- The per-row processing loop of `fetchAndCacheSunsetData` (moodle.go):
`fmtLocal date sunset` stands for the parse–combine–convert–format chain
(`time.Parse` twice, `time.Date`, `.Local()`, `.Format("3:04 PM MST")`),
returning `none` when either parse fails, in which case the row is
skipped.  Accumulates the cache map and the `todaySunset` sentinel. -/
def sunsetLoop (fmtLocal : String → String → Option String) (startDate : String)
    (results : List SunsetApiResult) : List (String × String) × String :=
  results.foldl
    (fun acc result =>
      match fmtLocal result.date result.sunset with
      | none => acc
      | some formattedTime =>
        (mapSet acc.1 result.date formattedTime,
         if result.date == startDate then formattedTime else acc.2))
    ([], "")

/-- `fetchAndCacheSunsetData` (moodle.go) after a successful HTTP fetch
and JSON decode: build the 30-day cache (`cachedUntil` =
`end.AddDate(0,0,1)`, passed in as `endPlus1`), write it over the cache
file, and only then fail when no row produced today's entry.  Returns the
written file state plus the call result. -/
def fetchAndCacheSunsetData (fmtLocal : String → String → Option String)
    (lat lng : ℚ) (startDate : String) (endPlus1 : Int)
    (results : List SunsetApiResult) : Option SunsetCache × Except String String :=
  let acc := sunsetLoop fmtLocal startDate results
  let cache : SunsetCache := ⟨⟨lat, lng⟩, endPlus1, acc.1⟩
  let file := some cache
  if acc.2 = "" then
    (file, Except.error ("no sunset data found for today (" ++ startDate ++ ")"))
  else (file, Except.ok acc.2)

/-! ## Helper lemmas on the string embedding -/

theorem stringMk_toList (s : String) : String.mk s.toList = s := rfl

theorem toList_append (s t : String) : (s ++ t).toList = s.toList ++ t.toList := rfl

theorem isPrefixOfIff {α : Type} [BEq α] [LawfulBEq α] {l₁ l₂ : List α} :
    l₁.isPrefixOf l₂ = true ↔ l₁ <+: l₂ := List.isPrefixOf_iff_prefix

theorem goHasPrefix_append (p t : String) : goHasPrefix (p ++ t) p = true := by
  rw [goHasPrefix, toList_append, isPrefixOfIff]
  exact List.prefix_append _ _

theorem goTrimPrefix_append (p t : String) : goTrimPrefix (p ++ t) p = t := by
  rw [goTrimPrefix, if_pos (goHasPrefix_append p t), toList_append, List.drop_left]
  exact stringMk_toList t

theorem goContains_empty (s : String) : goContains s "" = true := by
  rw [goContains]
  cases h : s.toList with
  | nil => rw [goIndexOf]; rfl
  | cons c t => rw [goIndexOf]; simp [List.isPrefixOf]

/-- An occurrence of `sep` somewhere in `l` makes `goIndexOf` succeed. -/
theorem goIndexOf_isSome_of_occurrence (sep : List Char) :
    ∀ (l : List Char) (i : Nat), sep.isPrefixOf (l.drop i) = true →
      (goIndexOf sep l).isSome = true := by
  intro l
  induction l with
  | nil =>
    intro i h
    rw [List.drop_nil] at h
    rcases isPrefixOfIff.1 h with ⟨t, ht⟩
    rcases List.append_eq_nil.1 ht with ⟨hsep, -⟩
    rw [goIndexOf, hsep]
    rfl
  | cons c t ih =>
    intro i h
    rw [goIndexOf]
    by_cases hp : sep.isPrefixOf (c :: t) = true
    · rw [if_pos hp]; rfl
    · rw [if_neg hp]
      cases i with
      | zero => exact absurd h hp
      | succ k =>
        rw [List.drop_succ_cons] at h
        rcases Option.isSome_iff_exists.1 (ih k h) with ⟨j, hj⟩
        rw [hj]
        rfl

/-- The head of the first segment cut by `goIndexOf`: when `sep` heads
`rest` and occurs nowhere inside `pre`, the first occurrence in
`pre ++ rest` is exactly at `pre.length`. -/
theorem goIndexOf_append (sep : List Char) (hsep : sep ≠ []) :
    ∀ (pre rest : List Char), sep.isPrefixOf rest = true →
      (∀ i, i < pre.length → sep.isPrefixOf ((pre ++ rest).drop i) = false) →
      goIndexOf sep (pre ++ rest) = some pre.length := by
  intro pre
  induction pre with
  | nil =>
    intro rest hr _
    cases rest with
    | nil =>
      rcases isPrefixOfIff.1 hr with ⟨t, ht⟩
      exact absurd (List.append_eq_nil.1 ht).1 hsep
    | cons c t =>
      rw [List.nil_append, goIndexOf, if_pos hr]
      rfl
  | cons c p ih =>
    intro rest hr hno
    have h0 : sep.isPrefixOf ((c :: p ++ rest).drop 0) = false := hno 0 (by simp)
    rw [List.drop_zero, List.cons_append] at h0
    rw [List.cons_append, goIndexOf, if_neg (by rw [h0]; exact Bool.false_ne_true),
      ih rest hr (fun i hi => by
        have hx := hno (i + 1) (by simpa using Nat.succ_lt_succ hi)
        rwa [List.cons_append, List.drop_succ_cons] at hx)]
    rfl

theorem goSplitAux_ne_nil (sep : List Char) (fuel : Nat) (s : List Char) :
    goSplitAux sep fuel s ≠ [] := by
  cases fuel with
  | zero => simp [goSplitAux]
  | succ n =>
    rw [goSplitAux]
    cases goIndexOf sep s with
    | none => simp
    | some i => simp

/-- Heads `p c = false` for the head of `dropWhile p`. -/
theorem dropWhile_head_false (p : α → Bool) :
    ∀ (l : List α) (c : α) (t : List α), l.dropWhile p = c :: t → p c = false := by
  intro l
  induction l with
  | nil => intro c t h; simp [List.dropWhile] at h
  | cons a l ih =>
    intro c t h
    rw [List.dropWhile] at h
    by_cases hp : p a = true
    · rw [hp] at h; exact ih c t h
    · rw [Bool.not_eq_true] at hp
      rw [hp] at h
      cases h
      exact hp

/-- A string containing a non-whitespace character does not normalize to
the empty string. -/
theorem normalizeString_ne_empty (s : String) (c : Char) (hc : c ∈ s.toList)
    (hw : c.isWhitespace = false) : normalizeString s ≠ "" := by
  intro h
  have h1 : (((s.toList.dropWhile Char.isWhitespace).reverse.dropWhile
      Char.isWhitespace).reverse).map Char.toLower = [] := congrArg String.data h
  rw [List.map_eq_nil_iff, List.reverse_eq_nil_iff, List.dropWhile_eq_nil_iff] at h1
  have hd1 : s.toList.dropWhile Char.isWhitespace ≠ [] := by
    intro hnil
    rw [List.dropWhile_eq_nil_iff] at hnil
    rw [hnil c hc] at hw
    cases hw
  rcases List.exists_cons_of_ne_nil hd1 with ⟨hd, tl, hcons⟩
  have hhd : Char.isWhitespace hd = false := dropWhile_head_false _ _ _ _ hcons
  have hmem : hd ∈ (s.toList.dropWhile Char.isWhitespace).reverse := by
    rw [List.mem_reverse, hcons]
    exact List.mem_cons_self hd tl
  rw [h1 hd hmem] at hhd
  cases hhd

/-! ## C1: the REDO condition -/

/-- C1 (counterexample): the claim asserts one uniform REDO condition —
grade present, maximum positive, percentage below 90 — for both sync
paths.  For the grade 50 out of a maximum of 50 (a 100% score) that
condition is false, and the Moodle path indeed reports no REDO, but the
Canvas path marks REDO because it compares the raw score against 90 and
never consults a maximum score. -/
theorem needsRedo_counterexample :
    canvasNeedsRedo (some ⟨some 50, "", ""⟩) = true
    ∧ specNeedsRedo (some (50, 50)) = false
    ∧ moodleNeedsRedo (some ⟨50, 50, 0, 0, 0⟩) = false := by
  have h100 : ¬((50 : ℚ) / 50 * 100 < 90) := by norm_num
  refine ⟨?_, ?_, ?_⟩
  · show decide ((50 : ℚ) < 90) = true
    rw [decide_eq_true_eq]
    norm_num
  · show (decide ((0 : ℚ) < 50) && decide ((50 : ℚ) / 50 * 100 < 90)) = false
    simp [h100]
    norm_num
  · show (decide ((0 : ℚ) < 50) && decide ((50 : ℚ) / 50 * 100 < 90)) = false
    simp [h100]
    norm_num

/-- C1 (amended): on the Moodle path REDO holds exactly when a grade is
present with positive maximum and percentage strictly below 90; on the
Canvas path REDO holds exactly when a submission with a non-null score is
present and the raw score is strictly below 90, with no maximum-score
test; with no grade (or a null score) neither path marks REDO. -/
theorem needsRedo_condition :
    (∀ g : Option MoodleGrade,
      moodleNeedsRedo g = true ↔
        ∃ gr, g = some gr ∧ 0 < gr.gradeMax ∧ gr.grade / gr.gradeMax * 100 < 90)
    ∧ (∀ s : Option CanvasSubmission,
      canvasNeedsRedo s = true ↔
        ∃ sub sc, s = some sub ∧ sub.score = some sc ∧ sc < 90) := by
  constructor
  · intro g
    cases g with
    | none => simp [moodleNeedsRedo]
    | some gr => simp [moodleNeedsRedo, and_assoc]
  · intro s
    cases s with
    | none => simp [canvasNeedsRedo]
    | some sub =>
      cases hsc : sub.score with
      | none => simp [canvasNeedsRedo, hsc]
      | some sc => simp [canvasNeedsRedo, hsc]

/-! ## C2: the due-date rule -/

/-- C2 (confirmed): on the Canvas path a REDO assignment gets a due date
exactly seven days from the run time, ignoring the source date; otherwise
the due date is the parsed source timestamp (instant-preserving format
conversion), and absent or unparsable source dates set none.  On the
Moodle path the REDO condition never holds (the grade lookup is stubbed to
nil), and the due date is the source unix timestamp when positive, none
otherwise. -/
theorem due_date_rule (parse : String → Option Int) (now : Int) (courseName : String)
    (a : CanvasAssignment) (sub : Option CanvasSubmission)
    (fmtTime : Int → String) (courseNames : Int → String) (ma : MoodleAssignment)
    (hparse : parse "" = none) :
    (canvasCardFields parse now courseName a sub).due
      = (if canvasNeedsRedo sub then some (addDays now 7) else parse a.dueAt)
    ∧ (moodleCardFields fmtTime courseNames ma).needsRedo = false
    ∧ (moodleCardFields fmtTime courseNames ma).due
      = (if 0 < ma.dueDateUnix then some ma.dueDateUnix else none) := by
  refine ⟨?_, rfl, rfl⟩
  show (if canvasNeedsRedo sub then some (addDays now 7)
        else if a.dueAt ≠ "" then parse a.dueAt else none)
      = (if canvasNeedsRedo sub then some (addDays now 7) else parse a.dueAt)
  by_cases h : canvasNeedsRedo sub = true
  · rw [if_pos h, if_pos h]
  · rw [Bool.not_eq_true] at h
    rw [h]
    show (if a.dueAt ≠ "" then parse a.dueAt else none) = parse a.dueAt
    by_cases hd : a.dueAt = ""
    · rw [if_neg (by simp [hd]), hd, hparse]
    · rw [if_pos hd]

/-- C2 witness: the rule evaluated at concrete inputs through the theorem. -/
theorem due_date_rule_witness :
    ((fun _ : String => (none : Option Int)) "" = none)
    ∧ ((canvasCardFields (fun _ => none) 1000 "Biology"
          ⟨12345, "Test", "", "2025-09-20T18:00:00Z", 1, "u"⟩
          (some ⟨some 85, "", ""⟩)).due
        = (if canvasNeedsRedo (some ⟨some 85, "", ""⟩) then some (addDays 1000 7)
           else (fun _ : String => (none : Option Int)) "2025-09-20T18:00:00Z")
       ∧ (moodleCardFields (fun _ => "") (fun _ => "") ⟨7, "HW", "", 1, 500, "u", "assignment"⟩).needsRedo = false
       ∧ (moodleCardFields (fun _ => "") (fun _ => "") ⟨7, "HW", "", 1, 500, "u", "assignment"⟩).due
          = (if (0 : Int) < 500 then some 500 else none)) :=
  ⟨rfl, due_date_rule (fun _ => none) 1000 "Biology"
    ⟨12345, "Test", "", "2025-09-20T18:00:00Z", 1, "u"⟩ (some ⟨some 85, "", ""⟩)
    (fun _ => "") (fun _ => "") ⟨7, "HW", "", 1, 500, "u", "assignment"⟩ rfl⟩

/-! ## C6: the REDO title rule -/

/-- C6 (counterexample): with a passing grade, applying the rule twice to
the doubly-prefixed title strips two occurrences, so it differs from one
application; and applying a passing grade after a failing one to a title
already carrying the prefix does not recover the original title. -/
theorem redo_rule_counterexample :
    applyRedoPrefix false (applyRedoPrefix false "REDO - REDO - A")
      ≠ applyRedoPrefix false "REDO - REDO - A"
    ∧ applyRedoPrefix false (applyRedoPrefix true "REDO - A") ≠ "REDO - A" := by
  decide

/-- C6 (amended): with a failing grade the rule is always idempotent; with
a passing grade it is idempotent provided one stripped occurrence does not
expose a second prefix; and a passing grade after a failing one recovers
the original title provided that title did not already begin with the
prefix. -/
theorem redo_rule_idempotent_reversible (t : String) :
    (applyRedoPrefix true (applyRedoPrefix true t) = applyRedoPrefix true t)
    ∧ (goHasPrefix (goTrimPrefix t "REDO - ") "REDO - " = false →
        applyRedoPrefix false (applyRedoPrefix false t) = applyRedoPrefix false t)
    ∧ (goHasPrefix t "REDO - " = false →
        applyRedoPrefix false (applyRedoPrefix true t) = t) := by
  refine ⟨?_, ?_, ?_⟩
  · by_cases h : goHasPrefix t "REDO - " = true
    · simp [applyRedoPrefix, h]
    · rw [Bool.not_eq_true] at h
      simp [applyRedoPrefix, h, goHasPrefix_append]
  · intro h2
    by_cases h : goHasPrefix t "REDO - " = true
    · simp [applyRedoPrefix, h, h2]
    · rw [Bool.not_eq_true] at h
      simp [applyRedoPrefix, h]
  · intro h
    simp [applyRedoPrefix, h, goHasPrefix_append, goTrimPrefix_append]

/-- C6 witness: the amended rule evaluated at a fresh title through the
theorem. -/
theorem redo_rule_witness :
    (goHasPrefix (goTrimPrefix "Biology - Test" "REDO - ") "REDO - " = false
      ∧ goHasPrefix "Biology - Test" "REDO - " = false)
    ∧ applyRedoPrefix false (applyRedoPrefix false "Biology - Test")
        = applyRedoPrefix false "Biology - Test"
    ∧ applyRedoPrefix false (applyRedoPrefix true "Biology - Test") = "Biology - Test" :=
  ⟨⟨by decide, by decide⟩,
    (redo_rule_idempotent_reversible "Biology - Test").2.1 (by decide),
    (redo_rule_idempotent_reversible "Biology - Test").2.2 (by decide)⟩

/-! ## C4: sunset cache hit condition -/

/-- C4 (counterexample): at the exact instant `now = cachedUntil`, with
matching location and an entry for today, the check is a hit — the claim
says a request at `validUntil` is a complete miss, but the source tests
`time.Now().After(cache.CachedUntil)`, which is strict. -/
theorem sunset_cache_counterexample :
    checkSunsetCache (some ⟨⟨40, -111⟩, 1000, [("2025-10-11", "7:01 PM MDT")]⟩)
        1000 "2025-10-11" 40 (-111) = "7:01 PM MDT"
    ∧ ¬ ((1000 : Int) < 1000)
    ∧ getSundownTime (fun _ => none)
        (some ⟨⟨40, -111⟩, 1000, [("2025-10-11", "7:01 PM MDT")]⟩)
        1000 "2025-10-11" 40 (-111) = some "7:01 PM MDT" := by
  have h1 : checkSunsetCache (some ⟨⟨40, -111⟩, 1000, [("2025-10-11", "7:01 PM MDT")]⟩)
      1000 "2025-10-11" 40 (-111) = "7:01 PM MDT" := by
    rw [checkSunsetCache, if_neg (by simp), if_neg (by simp)]
    rfl
  refine ⟨h1, by omega, ?_⟩
  rw [getSundownTime, h1]
  rw [if_pos (by decide)]

/-- C4 (amended): the check hits exactly when the file parses, the stored
location equals the requested one, `now ≤ validUntil` (expiry uses the
strict `After`, so the boundary instant still hits), and the map holds an
entry for today; an absent or unparsable file, a location mismatch, or
`now > validUntil` is a complete miss, and on a hit `GetSundownTime`
returns the stored time without fetching. -/
theorem sunset_cache_hit_iff (cache : SunsetCache) (now : Int) (dateStr : String)
    (lat lng : ℚ) (hne : ∀ p ∈ cache.data, p.2 ≠ "") :
    (checkSunsetCache (some cache) now dateStr lat lng ≠ "" ↔
      cache.location.latitude = lat ∧ cache.location.longitude = lng ∧
        now ≤ cache.cachedUntil ∧ (mapLookup cache.data dateStr).isSome = true)
    ∧ checkSunsetCache none now dateStr lat lng = ""
    ∧ (∀ fetch : Unit → Option String,
        checkSunsetCache (some cache) now dateStr lat lng ≠ "" →
          getSundownTime fetch (some cache) now dateStr lat lng =
            some (checkSunsetCache (some cache) now dateStr lat lng)) := by
  refine ⟨?_, rfl, ?_⟩
  · rw [checkSunsetCache]
    by_cases hloc : cache.location.latitude ≠ lat ∨ cache.location.longitude ≠ lng
    · rw [if_pos hloc]
      simp only [ne_eq, not_true_eq_false, false_iff, not_and]
      intro h1 h2
      rcases hloc with h | h
      · exact absurd h1 (by simpa using h)
      · exact fun _ _ => absurd h2 (by simpa using h)
    · rw [if_neg hloc]
      push_neg at hloc
      by_cases hexp : cache.cachedUntil < now
      · rw [if_pos hexp]
        simp only [ne_eq, not_true_eq_false, false_iff, not_and]
        intro _ _ h3
        exact absurd h3 (by omega)
      · rw [if_neg hexp]
        cases hfind : mapLookup cache.data dateStr with
        | none => simp [hloc.1, hloc.2, hfind]
        | some v =>
          have hv : v ≠ "" := by
            rcases Option.map_eq_some.1 hfind with ⟨p, hp, hpv⟩
            exact hpv ▸ hne p (List.mem_of_find?_eq_some hp)
          simp only [hfind, Option.isSome_some]
          constructor
          · intro _
            exact ⟨hloc.1, hloc.2, by omega, trivial⟩
          · intro _
            exact hv
  · intro fetch h
    rw [getSundownTime, if_pos h]

/-- C4 witness: the amended characterization evaluated on a concrete
cache through the theorem. -/
theorem sunset_cache_hit_iff_witness :
    (∀ p ∈ ([("2025-10-11", "7:01 PM MDT")] : List (String × String)), p.2 ≠ "")
    ∧ (checkSunsetCache (some ⟨⟨40, -111⟩, 1000, [("2025-10-11", "7:01 PM MDT")]⟩)
          999 "2025-10-11" 40 (-111) ≠ "" ↔
        (40 : ℚ) = 40 ∧ (-111 : ℚ) = -111 ∧ (999 : Int) ≤ 1000 ∧
          (mapLookup [("2025-10-11", "7:01 PM MDT")] "2025-10-11").isSome = true) := by
  have hne : ∀ p ∈ ([("2025-10-11", "7:01 PM MDT")] : List (String × String)), p.2 ≠ "" := by
    intro p hp
    rcases List.mem_singleton.1 hp with rfl
    decide
  exact ⟨hne,
    (sunset_cache_hit_iff ⟨⟨40, -111⟩, 1000, [("2025-10-11", "7:01 PM MDT")]⟩
      999 "2025-10-11" 40 (-111) hne).1⟩

/-! ## C9: empty query never misses -/

/-- C9 (confirmed): a query that normalizes to the empty string never
yields not-found on a non-empty board list whose names all contain some
non-whitespace character: the exact pass fails (every normalized name is
nonempty) and the substring pass accepts the very first candidate, since
the empty string is contained in every name. -/
theorem empty_query_first_board (boards : List Board) (q : String)
    (hq : normalizeString q = "") (hboards : boards ≠ [])
    (hnames : ∀ b ∈ boards, ∃ c ∈ b.name.toList, c.isWhitespace = false) :
    findBoardByName boards q = boards.head? := by
  have hexact : boards.find? (fun board => normalizeString board.name == normalizeString q) = none := by
    rw [List.find?_eq_none]
    intro b hb hpred
    rcases hnames b hb with ⟨c, hc, hw⟩
    exact normalizeString_ne_empty b.name c hc hw (by rw [← hq]; exact eq_of_beq hpred)
  cases boards with
  | nil => exact absurd rfl hboards
  | cons b rest =>
    rw [findBoardByName]
    rw [hexact]
    rw [List.find?_cons_of_pos rest (by rw [hq]; exact goContains_empty _)]
    rfl

/-- C9 witness: a whitespace query on a concrete board list through the
theorem. -/
theorem empty_query_first_board_witness :
    (normalizeString "  " = "" ∧ ([⟨"1", "Mac", "u"⟩] : List Board) ≠ [])
    ∧ findBoardByName [⟨"1", "Mac", "u"⟩] "  " = ([⟨"1", "Mac", "u"⟩] : List Board).head? :=
  ⟨⟨by decide, by decide⟩,
    empty_query_first_board [⟨"1", "Mac", "u"⟩] "  " (by decide) (by decide)
      (by intro b hb; rcases List.mem_singleton.1 hb with rfl; exact ⟨'M', by decide, by decide⟩)⟩

/-! ## C8: exact match beats substring match -/

/-- `find?` over a filtered list folds the filter into the predicate. -/
theorem find?_filter_eq (l : List α) (p q : α → Bool) :
    (l.filter p).find? q = l.find? (fun x => p x && q x) := by
  induction l with
  | nil => rfl
  | cons a t ih =>
    rw [List.filter_cons]
    by_cases hp : p a = true
    · rw [if_pos hp]
      by_cases hq : q a = true
      · rw [List.find?_cons_of_pos _ hq, List.find?_cons_of_pos _ (by rw [hp, hq]; rfl)]
      · rw [List.find?_cons_of_neg _ hq, List.find?_cons_of_neg _ (by rw [hp]; simpa using hq), ih]
    · rw [if_neg hp, List.find?_cons_of_neg _ (by rw [Bool.not_eq_true] at hp; rw [hp]; simp), ih]

/-- C8 (confirmed): whenever some candidate matches the query exactly
(after normalization), `findBoardByName` returns the first such candidate
— the substring pass is never consulted; and `findListByName` behaves as
the same two-pass search run on the candidates filtered to the given
board id. -/
theorem exact_match_wins (boards : List Board) (q : String) (b : Board)
    (h : boards.find? (fun bd => normalizeString bd.name == normalizeString q) = some b) :
    findBoardByName boards q = some b
    ∧ ∀ (lists : List TrelloList) (boardID listName : String),
        findListByName lists boardID listName =
          (match (lists.filter (fun l => l.boardID == boardID)).find?
              (fun l => normalizeString l.name == normalizeString listName) with
           | some l => some l
           | none =>
             (lists.filter (fun l => l.boardID == boardID)).find?
               (fun l => goContains (normalizeString l.name) (normalizeString listName))) := by
  constructor
  · rw [findBoardByName]
    rw [h]
  · intro lists boardID listName
    rw [findListByName, find?_filter_eq, find?_filter_eq]

/-- C8 witness: the combined board list from the spec example — the exact
board wins over the merely-containing one placed ahead of it. -/
theorem exact_match_wins_witness :
    (([⟨"1", "Macs Board", ""⟩, ⟨"2", "Mac", ""⟩] : List Board).find?
        (fun bd => normalizeString bd.name == normalizeString "Mac") = some ⟨"2", "Mac", ""⟩)
    ∧ findBoardByName [⟨"1", "Macs Board", ""⟩, ⟨"2", "Mac", ""⟩] "Mac" = some ⟨"2", "Mac", ""⟩ :=
  ⟨by decide,
    (exact_match_wins [⟨"1", "Macs Board", ""⟩, ⟨"2", "Mac", ""⟩] "Mac" ⟨"2", "Mac", ""⟩
      (by decide)).1⟩

/-! ## C10: error path still overwrites the sunset cache -/

/-- Overwriting the value bound to key `k` does not disturb a search for a
different key `k2`. -/
theorem find?_overwrite (k v k2 : String) (h : k ≠ k2) (m : List (String × String)) :
    (m.map (fun p => if p.1 == k then (k, v) else p)).find? (fun p => p.1 == k2)
      = m.find? (fun p => p.1 == k2) := by
  induction m with
  | nil => rfl
  | cons a t ih =>
    rw [List.map_cons]
    by_cases ha : (a.1 == k) = true
    · have ha2 : a.1 = k := eq_of_beq ha
      rw [if_pos ha, List.find?_cons_of_neg _ (by simp [h]),
        List.find?_cons_of_neg _ (by simp [ha2, h]), ih]
    · rw [if_neg ha]
      by_cases hb : (a.1 == k2) = true
      · rw [List.find?_cons_of_pos (p := fun q : String × String => q.1 == k2) _ hb,
          List.find?_cons_of_pos (p := fun q : String × String => q.1 == k2) _ hb]
      · rw [List.find?_cons_of_neg (p := fun q : String × String => q.1 == k2) _ hb,
          List.find?_cons_of_neg (p := fun q : String × String => q.1 == k2) _ hb, ih]

/-- Storing under a different key leaves a lookup unchanged. -/
theorem mapLookup_mapSet_ne (m : List (String × String)) (k v k2 : String) (h : k ≠ k2) :
    mapLookup (mapSet m k v) k2 = mapLookup m k2 := by
  rw [mapSet]
  by_cases hmem : (m.find? (fun p => p.1 == k)).isSome = true
  · rw [if_pos hmem, mapLookup, mapLookup, find?_overwrite k v k2 h m]
  · rw [if_neg hmem, mapLookup, mapLookup, List.find?_append]
    cases hf : m.find? (fun p => p.1 == k2) with
    | some p => simp
    | none =>
      simp only [Option.none_or]
      rw [List.find?_cons_of_neg (p := fun q : String × String => q.1 == k2) _ (by simp [h]),
        List.find?_nil]

/-- The processing loop never records an entry for `startDate` when every
row for that date fails to parse, and the `todaySunset` sentinel stays
empty. -/
theorem sunsetLoop_no_today (fmtLocal : String → String → Option String)
    (startDate : String) (results : List SunsetApiResult)
    (h : ∀ r ∈ results, r.date = startDate → fmtLocal r.date r.sunset = none) :
    mapLookup (sunsetLoop fmtLocal startDate results).1 startDate = none
    ∧ (sunsetLoop fmtLocal startDate results).2 = "" := by
  rw [sunsetLoop]
  suffices hgen : ∀ (acc : List (String × String) × String),
      mapLookup acc.1 startDate = none → acc.2 = "" →
      mapLookup (results.foldl
        (fun acc result =>
          match fmtLocal result.date result.sunset with
          | none => acc
          | some formattedTime =>
            (mapSet acc.1 result.date formattedTime,
             if result.date == startDate then formattedTime else acc.2)) acc).1 startDate = none
      ∧ (results.foldl
        (fun acc result =>
          match fmtLocal result.date result.sunset with
          | none => acc
          | some formattedTime =>
            (mapSet acc.1 result.date formattedTime,
             if result.date == startDate then formattedTime else acc.2)) acc).2 = "" by
    exact hgen ([], "") rfl rfl
  induction results with
  | nil => intro acc h1 h2; exact ⟨h1, h2⟩
  | cons r t ih =>
    intro acc h1 h2
    have hmem : ∀ x ∈ t, x.date = startDate → fmtLocal x.date x.sunset = none := by
      intro x hx
      exact h x (List.mem_cons_of_mem r hx)
    rw [List.foldl_cons]
    cases hf : fmtLocal r.date r.sunset with
    | none => exact ih hmem _ h1 h2
    | some formatted =>
      have hrd : r.date ≠ startDate := by
        intro hrd
        rw [h r (List.mem_cons_self r t) hrd] at hf
        cases hf
      refine ih hmem _ ?_ ?_
      · rw [mapLookup_mapSet_ne acc.1 r.date formatted startDate hrd]
        exact h1
      · show (if r.date == startDate then formatted else acc.2) = ""
        rw [if_neg (by simpa using hrd)]
        exact h2

/-- C10 (confirmed): when the fetched window yields no (parsable) row for
today, `fetchAndCacheSunsetData` returns the "no sunset data found for
today" error, yet the cache file has already been overwritten with the
freshly built window — whose map indeed lacks today's key.  The write is
unconditional: the failure is detected only after the file is saved. -/
theorem fetch_error_still_writes (fmtLocal : String → String → Option String)
    (lat lng : ℚ) (startDate : String) (endPlus1 : Int) (results : List SunsetApiResult)
    (h : ∀ r ∈ results, r.date = startDate → fmtLocal r.date r.sunset = none) :
    (fetchAndCacheSunsetData fmtLocal lat lng startDate endPlus1 results).1
      = some ⟨⟨lat, lng⟩, endPlus1, (sunsetLoop fmtLocal startDate results).1⟩
    ∧ (fetchAndCacheSunsetData fmtLocal lat lng startDate endPlus1 results).2
      = Except.error ("no sunset data found for today (" ++ startDate ++ ")")
    ∧ mapLookup (sunsetLoop fmtLocal startDate results).1 startDate = none := by
  rcases sunsetLoop_no_today fmtLocal startDate results h with ⟨h1, h2⟩
  refine ⟨?_, ?_, h1⟩ <;> simp [fetchAndCacheSunsetData, h2]

/-- C10 witness: a concrete fetched window missing today, through the
theorem. -/
theorem fetch_error_still_writes_witness :
    (∀ r ∈ ([⟨"2025-01-02", "17:00:00"⟩] : List SunsetApiResult),
      r.date = "2025-01-01" → (fun _ s => some s) r.date r.sunset = none)
    ∧ (fetchAndCacheSunsetData (fun _ s => some s) 40 (-111) "2025-01-01" 500
        [⟨"2025-01-02", "17:00:00"⟩]).2
      = Except.error ("no sunset data found for today (" ++ "2025-01-01" ++ ")") := by
  have hh : ∀ r ∈ ([⟨"2025-01-02", "17:00:00"⟩] : List SunsetApiResult),
      r.date = "2025-01-01" → (fun _ s => (some s : Option String)) r.date r.sunset = none := by
    intro r hr hd
    rcases List.mem_singleton.1 hr with rfl
    exact absurd hd (by decide)
  exact ⟨hh,
    (fetch_error_still_writes (fun _ s => some s) 40 (-111) "2025-01-01" 500
      [⟨"2025-01-02", "17:00:00"⟩] hh).2.1⟩

/-! ## C7: marker metadata round-trip -/

/-- A prefix of the left part of an append, provided it fits. -/
theorem prefix_of_append_of_le {x y s : List Char} (h : s <+: x ++ y)
    (hl : s.length ≤ x.length) : s <+: x := by
  rcases h with ⟨t, ht⟩
  have hs : s = (x ++ y).take s.length := by
    rw [← ht, List.take_left s t]
  rw [List.take_append_of_le_length hl] at hs
  rw [hs]
  exact List.take_prefix _ _

/-- C7 (counterexample): the base description `"A\n\n---"` does not contain
the separator `"\n\n---\n"`, yet appending the metadata block and stripping
does not reproduce it: the separator occurrence straddles the boundary, so
the strip cuts after the bare `"A"`. -/
theorem strip_format_counterexample :
    goContains "A\n\n---" "\n\n---\n" = false
    ∧ stripCanvasMetadata
        ("A\n\n---" ++ formatCanvasMetadata ⟨7, "Essay", "", "", 1, "u"⟩ "Bio" none)
      = "A"
    ∧ "A" ≠ "A\n\n---" := by
  refine ⟨by decide, by decide, by decide⟩

/-- C7 (amended): appending a metadata block and stripping reproduces the
base exactly, for any base that neither contains the separator nor ends in
a nonempty proper prefix of it (so that no separator occurrence can begin
before the appended block). -/
theorem strip_format_roundTrip (base : String) (a : CanvasAssignment) (courseName : String)
    (sub : Option CanvasSubmission)
    (h1 : goContains base "\n\n---\n" = false)
    (h2 : ∀ s : List Char, s ≠ [] → s <:+ base.toList → ¬ s <+: "\n\n---\n".toList) :
    stripCanvasMetadata (base ++ formatCanvasMetadata a courseName sub) = base := by
  set meta := formatCanvasMetadata a courseName sub with hmeta
  set sep : List Char := "\n\n---\n".toList with hsep
  have hstep : ∀ (s t : String), sep <+: s.toList → sep <+: (s ++ t).toList := by
    intro s t hs
    rw [toList_append]
    exact hs.trans (List.prefix_append _ _)
  have hpre : sep <+: meta.toList := by
    rw [hmeta, formatCanvasMetadata]
    apply hstep
    apply hstep
    apply hstep
    apply hstep
    apply hstep
    apply hstep
    apply hstep
    apply hstep
    apply hstep
    decide
  have h0 : ∀ i, i < base.toList.length →
      sep.isPrefixOf ((base.toList ++ meta.toList).drop i) = false := by
    intro i hi
    by_contra hocc
    rw [Bool.not_eq_false] at hocc
    rw [List.drop_append_eq_append_drop, Nat.sub_eq_zero_of_le (Nat.le_of_lt hi),
      List.drop_zero] at hocc
    replace hocc := isPrefixOfIff.1 hocc
    set d : List Char := base.toList.drop i with hd
    have hdlen : d.length = base.toList.length - i := by rw [hd, List.length_drop]
    by_cases hlen : sep.length ≤ d.length
    · have hsepd : sep <+: d := prefix_of_append_of_le hocc hlen
      have : (goIndexOf sep base.toList).isSome = true :=
        goIndexOf_isSome_of_occurrence sep base.toList i (isPrefixOfIff.2 hsepd)
      rw [goContains] at h1
      rw [h1] at this
      cases this
    · push_neg at hlen
      have hdne : d ≠ [] := by
        intro hnil
        rw [hnil, List.length_nil] at hdlen
        omega
      have hdpre : d <+: sep := by
        rcases hocc with ⟨t, ht⟩
        have hds : d = (d ++ meta.toList).take d.length := (List.take_left d meta.toList).symm
        rw [← ht, List.take_append_of_le_length (Nat.le_of_lt hlen)] at hds
        rw [hds]
        exact List.take_prefix _ _
      exact h2 d hdne (hd ▸ List.drop_suffix i base.toList) hdpre
  have hidx : goIndexOf sep (base.toList ++ meta.toList) = some base.toList.length :=
    goIndexOf_append sep (by rw [hsep]; decide) base.toList meta.toList
      (isPrefixOfIff.2 hpre) h0
  have hfull : (base ++ meta).toList = base.toList ++ meta.toList := rfl
  have haux : goSplitAux "\n\n---\n".toList ((base ++ meta).toList.length + 1) (base ++ meta).toList
      = (base.toList ++ meta.toList).take base.toList.length
        :: goSplitAux "\n\n---\n".toList ((base.toList ++ meta.toList).length)
            ((base.toList ++ meta.toList).drop (base.toList.length + "\n\n---\n".toList.length)) := by
    rw [goSplitAux, hfull, hidx]
  have hparts : goSplit (base ++ meta) "\n\n---\n"
      = String.mk ((base.toList ++ meta.toList).take base.toList.length)
        :: (goSplitAux "\n\n---\n".toList ((base.toList ++ meta.toList).length)
            ((base.toList ++ meta.toList).drop
              (base.toList.length + "\n\n---\n".toList.length))).map String.mk := by
    rw [goSplit, haux, List.map_cons]
  rw [stripCanvasMetadata.eq_def, hparts]
  rcases List.exists_cons_of_ne_nil
    (show (goSplitAux "\n\n---\n".toList ((base.toList ++ meta.toList).length)
        ((base.toList ++ meta.toList).drop
          (base.toList.length + "\n\n---\n".toList.length))).map String.mk ≠ [] by
      intro hnil
      exact goSplitAux_ne_nil _ _ _ (List.map_eq_nil_iff.1 hnil)) with ⟨c, t, hct⟩
  rw [hct]
  show String.mk ((base.toList ++ meta.toList).take base.toList.length) = base
  rw [List.take_left]
  exact stringMk_toList base

/-- C7 witness: a plain base description through the amended theorem. -/
theorem strip_format_roundTrip_witness :
    (goContains "Assignment description" "\n\n---\n" = false)
    ∧ stripCanvasMetadata
        ("Assignment description"
          ++ formatCanvasMetadata ⟨123, "HW", "", "", 1, "u"⟩ "Bio" none)
      = "Assignment description" :=
  ⟨by decide,
    strip_format_roundTrip "Assignment description" ⟨123, "HW", "", "", 1, "u"⟩ "Bio" none
      (by decide)
      (by
        intro s hne hsuf hpre
        rcases List.exists_cons_of_ne_nil hne with ⟨c0, t0, rfl⟩
        rcases hpre with ⟨t, ht⟩
        have hc0 : c0 = Char.ofNat 10 := by
          have h3 := congrArg List.head? ht
          rw [List.cons_append, List.head?_cons] at h3
          exact Option.some.inj (h3.trans (by decide))
        have hmem : c0 ∈ "Assignment description".toList := by
          rcases hsuf with ⟨p, hp⟩
          rw [← hp]
          exact List.mem_append_right p (List.mem_cons_self c0 t0)
        rw [hc0] at hmem
        exact absurd hmem (by decide))⟩

/-! ## C5: second-run idempotence of the reconciler -/

theorem goFindIdx_eq_some_iff (p : α → Bool) :
    ∀ (l : List α) (i : Nat),
      goFindIdx p l = some i ↔
        ((∃ c, l[i]? = some c ∧ p c = true)
          ∧ ∀ j, j < i → ∀ c, l[j]? = some c → p c = false) := by
  intro l
  induction l with
  | nil => intro i; simp [goFindIdx]
  | cons a t ih =>
    intro i
    rw [goFindIdx]
    by_cases hp : p a = true
    · rw [if_pos hp]
      constructor
      · intro h
        have hi : i = 0 := (Option.some.inj h).symm
        subst hi
        exact ⟨⟨a, List.getElem?_cons_zero, hp⟩, fun j hj => absurd hj (Nat.not_lt_zero j)⟩
      · rintro ⟨⟨c, hc, hpc⟩, hall⟩
        cases i with
        | zero => rfl
        | succ k =>
          have h0 := hall 0 (Nat.succ_pos k) a List.getElem?_cons_zero
          rw [hp] at h0
          cases h0
    · rw [if_neg hp]
      rw [Bool.not_eq_true] at hp
      constructor
      · intro h
        rcases Option.map_eq_some.1 h with ⟨k, hk, hki⟩
        subst hki
        rcases (ih k).1 hk with ⟨⟨c, hc, hpc⟩, hall⟩
        refine ⟨⟨c, by simpa using hc, hpc⟩, ?_⟩
        intro j hj c2 hc2
        cases j with
        | zero =>
          rw [List.getElem?_cons_zero] at hc2
          rw [← Option.some.inj hc2]
          exact hp
        | succ j2 =>
          rw [List.getElem?_cons_succ] at hc2
          exact hall j2 (Nat.lt_of_succ_lt_succ hj) c2 hc2
      · rintro ⟨⟨c, hc, hpc⟩, hall⟩
        cases i with
        | zero =>
          rw [List.getElem?_cons_zero] at hc
          rw [← Option.some.inj hc, hp] at hpc
          cases hpc
        | succ k =>
          have hk : goFindIdx p t = some k := by
            refine (ih k).2 ⟨⟨c, by simpa using hc, hpc⟩, ?_⟩
            intro j hj c2 hc2
            exact hall (j + 1) (Nat.succ_lt_succ hj) c2 (by simpa using hc2)
          rw [hk]
          rfl

theorem goFindIdx_eq_none_iff (p : α → Bool) :
    ∀ l : List α, goFindIdx p l = none ↔ ∀ c ∈ l, p c = false := by
  intro l
  induction l with
  | nil => simp [goFindIdx]
  | cons a t ih =>
    rw [goFindIdx]
    by_cases hp : p a = true
    · rw [if_pos hp]
      constructor
      · intro h
        cases h
      · intro hall
        have h0 := hall a (List.mem_cons_self a t)
        rw [hp] at h0
        cases h0
    · rw [if_neg hp]
      rw [Bool.not_eq_true] at hp
      constructor
      · intro h c hc
        rcases List.mem_cons.1 hc with rfl | hct
        · exact hp
        · exact (ih.1 (by cases hfi : goFindIdx p t with
            | none => rfl
            | some k => rw [hfi] at h; cases h)) c hct
      · intro hall
        rw [ih.2 (fun c hc => hall c (List.mem_cons_of_mem a hc))]
        rfl

theorem modifyAt_length (l : List α) (i : Nat) (f : α → α) :
    (modifyAt l i f).length = l.length := by
  induction l generalizing i with
  | nil => rfl
  | cons a t ih =>
    cases i with
    | zero => rfl
    | succ k => simp [modifyAt, ih]

theorem modifyAt_getElem? (l : List α) (i : Nat) (f : α → α) (k : Nat) :
    (modifyAt l i f)[k]? = if k = i then (l[k]?).map f else l[k]? := by
  induction l generalizing i k with
  | nil => simp [modifyAt]
  | cons a t ih =>
    cases i with
    | zero =>
      cases k with
      | zero => simp [modifyAt]
      | succ k2 => simp [modifyAt]
    | succ i2 =>
      cases k with
      | zero => simp [modifyAt]
      | succ k2 => simpa [modifyAt] using ih i2 k2

/-- A witnessed occurrence makes `strings.Contains` true. -/
theorem goContains_of_occurrence (s sub : String) (i : Nat)
    (h : sub.toList.isPrefixOf (s.toList.drop i) = true) : goContains s sub = true := by
  rw [goContains]
  exact goIndexOf_isSome_of_occurrence sub.toList s.toList i h

/-- `strings.Contains` sees a middle component of an append. -/
theorem goContains_middle (x m y : String) : goContains (x ++ (m ++ y)) m = true := by
  apply goContains_of_occurrence _ _ x.toList.length
  rw [toList_append, List.drop_left, toList_append, isPrefixOfIff]
  exact List.prefix_append _ _

/-- The Moodle metadata block of a non-quiz assignment, reassociated
around the search marker it embeds. -/
theorem moodleMeta_shape (F : Int → String) (a : MoodleAssignment) (cn : String)
    (hq : (a.atype == "quiz") = false) :
    formatMoodleMetadata F a cn none
      = "\n\n---\n" ++ (moodleMarker a.id ++ ("\nCourse: " ++ (cn ++ ("\nOriginal Due Date: "
          ++ ((if 0 < a.dueDateUnix then F a.dueDateUnix else "") ++ ("\nGrade: "
          ++ ("Not graded" ++ ("\nMoodle URL: " ++ a.url)))))))) := by
  apply String.ext
  simp only [formatMoodleMetadata, moodleMarker, hq, Bool.false_eq_true, if_false,
    String.data_append, List.append_assoc]
  simp [List.append_assoc, List.cons_append]

/-- The Canvas metadata block, reassociated around the search marker
(`canvasType` is always `"Assignment"` at the sync call site). -/
theorem canvasMeta_shape (a : CanvasAssignment) (cn : String)
    (sub : Option CanvasSubmission) :
    formatCanvasMetadata a cn sub
      = "\n\n---\n" ++ (canvasMarker "Assignment" a.id ++ ("\nCourse: " ++ (cn
          ++ ("\nOriginal Due Date: " ++ (a.dueAt ++ ("\nGrade: "
          ++ (canvasGradeString sub ++ ("\nCanvas URL: " ++ a.htmlURL)))))))) := by
  apply String.ext
  simp only [formatCanvasMetadata, canvasMarker, String.data_append, List.append_assoc]
  simp [List.append_assoc, List.cons_append]

/-- The computed Moodle card description of a non-quiz assignment contains
its own search marker. -/
theorem markerInMoodleDesc (F : Int → String) (a : MoodleAssignment) (cn intro2 : String)
    (hq : (a.atype == "quiz") = false) :
    goContains (goTrimSpace intro2 ++ formatMoodleMetadata F a cn none)
      (moodleMarker a.id) = true := by
  rw [moodleMeta_shape F a cn hq, ← String.append_assoc]
  exact goContains_middle _ _ _

/-- The computed Canvas card description contains its own search marker. -/
theorem markerInCanvasDesc (base : String) (a : CanvasAssignment) (cn : String)
    (sub : Option CanvasSubmission) :
    goContains (base ++ formatCanvasMetadata a cn sub)
      (canvasMarker "Assignment" a.id) = true := by
  rw [canvasMeta_shape a cn sub, ← String.append_assoc]
  exact goContains_middle _ _ _

/-- The finder predicate of the Moodle sync loop. -/
def mPred (a : MoodleAssignment) (card : Card) : Bool :=
  goContains card.description (moodleMarker a.id)

/-- The computed full description of a Moodle assignment in a run. -/
def mFull (F C : Int → String) (a : MoodleAssignment) : String :=
  (moodleCardFields F C a).description

/-- The finder predicate of the Canvas sync loop. -/
def cPred (a : CanvasAssignment) (card : Card) : Bool :=
  goContains card.description (canvasMarker "Assignment" a.id)

/-- The computed full description of a Canvas assignment in a run. -/
def cFull (P : String → Option Int) (now : Int) (CN : Int → String)
    (SB : Int → Option CanvasSubmission) (a : CanvasAssignment) : String :=
  (canvasCardFields P now (CN a.courseID) a (SB a.id)).description

theorem moodleFields_description (F C : Int → String) (a : MoodleAssignment) :
    (moodleCardFields F C a).description
      = goTrimSpace a.intro ++ formatMoodleMetadata F a
          (if C a.courseID = "" then "Course " ++ toString a.courseID else C a.courseID)
          none := rfl

theorem canvasFields_description (P : String → Option Int) (now : Int) (cn : String)
    (a : CanvasAssignment) (sub : Option CanvasSubmission) :
    (canvasCardFields P now cn a sub).description
      = stripCanvasMetadata a.description ++ formatCanvasMetadata a cn sub := rfl

/-- `mPred` only looks at the description. -/
theorem mPred_congr (a : MoodleAssignment) (c1 c2 : Card)
    (h : c1.description = c2.description) : mPred a c1 = mPred a c2 := by
  rw [mPred, mPred, h]

theorem cPred_congr (a : CanvasAssignment) (c1 c2 : Card)
    (h : c1.description = c2.description) : cPred a c1 = cPred a c2 := by
  rw [cPred, cPred, h]

/-- The Moodle full description contains its own marker (non-quiz). -/
theorem mFull_marker (F C : Int → String) (a : MoodleAssignment)
    (hq : (a.atype == "quiz") = false) :
    goContains (mFull F C a) (moodleMarker a.id) = true := by
  rw [mFull, moodleFields_description]
  exact markerInMoodleDesc F a _ a.intro hq

/-- The Canvas full description contains its own marker. -/
theorem cFull_marker (P : String → Option Int) (now : Int) (CN : Int → String)
    (SB : Int → Option CanvasSubmission) (a : CanvasAssignment) :
    goContains (cFull P now CN SB a) (canvasMarker "Assignment" a.id) = true := by
  rw [cFull, canvasFields_description]
  exact markerInCanvasDesc _ a _ _

/-- One unfolding of the Moodle loop body. -/
theorem moodleProcessOne_eq (F C : Int → String) (a : MoodleAssignment) (st : SyncState) :
    moodleProcessOne F C a st =
      match goFindIdx (mPred a) st.orig with
      | some i =>
        { st with
          updatedOrig := modifyAt st.updatedOrig i (fun c =>
            { c with
              due := (moodleCardFields F C a).due
              dueComplete := false
              description :=
                if ((st.orig.get? i).map Card.description).getD "" ≠ mFull F C a
                then mFull F C a else c.description })
          descUpdates :=
            if ((st.orig.get? i).map Card.description).getD "" ≠ mFull F C a
            then st.descUpdates + 1 else st.descUpdates }
      | none =>
        { st with
          created := st.created
            ++ [⟨"", (moodleCardFields F C a).title, mFull F C a,
                  (moodleCardFields F C a).due, false⟩]
          creates := st.creates + 1 } := rfl

/-- One unfolding of the Canvas loop body. -/
theorem canvasProcessOne_eq (P : String → Option Int) (now : Int) (CN : Int → String)
    (SB : Int → Option CanvasSubmission) (a : CanvasAssignment) (st : SyncState) :
    canvasProcessOne P now CN SB a st =
      match goFindIdx (cPred a) st.orig with
      | some i =>
        { st with
          updatedOrig := modifyAt st.updatedOrig i (fun c =>
            { c with
              due := (canvasCardFields P now (CN a.courseID) a (SB a.id)).due
              dueComplete := false }) }
      | none =>
        { st with
          created := st.created
            ++ [⟨"", (canvasCardFields P now (CN a.courseID) a (SB a.id)).title,
                  cFull P now CN SB a,
                  (canvasCardFields P now (CN a.courseID) a (SB a.id)).due, false⟩]
          creates := st.creates + 1 } := rfl

/-- Does assignment `a` resolve to snapshot position `k`? -/
def hitAt (cards0 : List Card) (k : Nat) (a : MoodleAssignment) : Bool :=
  goFindIdx (mPred a) cards0 == some k

/-- The description the server card at snapshot position `k` carries after
the processed prefix of a run. -/
def run1DescAt (F C : Int → String) (as : List MoodleAssignment) (cards0 : List Card)
    (k : Nat) : Option String :=
  match as.find? (hitAt cards0 k) with
  | some a => some (mFull F C a)
  | none => (cards0[k]?).map Card.description

/-- Run-1 characterization of the Moodle sync loop: the server cards carry
`run1DescAt` descriptions and the created cards carry the computed
descriptions of the unmatched assignments, in order.  The pairwise
hypothesis rules out two assignments resolving to one snapshot card. -/
theorem moodleRun_inv (F C : Int → String) (cards0 : List Card) :
    ∀ (rest processed : List MoodleAssignment) (st : SyncState),
      ((processed ++ rest).Pairwise (fun a b => ∀ c ∈ cards0,
        ¬(mPred a c = true ∧ mPred b c = true))) →
      st.orig = cards0 →
      st.updatedOrig.length = cards0.length →
      (∀ k, (st.updatedOrig[k]?).map Card.description = run1DescAt F C processed cards0 k) →
      st.created.map Card.description
        = (processed.filter (fun x => goFindIdx (mPred x) cards0 == none)).map (mFull F C) →
      (rest.foldl (fun s x => moodleProcessOne F C x s) st).orig = cards0
      ∧ (rest.foldl (fun s x => moodleProcessOne F C x s) st).updatedOrig.length = cards0.length
      ∧ (∀ k, ((rest.foldl (fun s x => moodleProcessOne F C x s) st).updatedOrig[k]?).map
            Card.description = run1DescAt F C (processed ++ rest) cards0 k)
      ∧ (rest.foldl (fun s x => moodleProcessOne F C x s) st).created.map Card.description
        = ((processed ++ rest).filter
            (fun x => goFindIdx (mPred x) cards0 == none)).map (mFull F C) := by
  intro rest
  induction rest with
  | nil =>
    intro processed st hpw horig hlen hdesc hcre
    rw [List.foldl_nil, List.append_nil]
    exact ⟨horig, hlen, hdesc, hcre⟩
  | cons a rest ih =>
    intro processed st hpw horig hlen hdesc hcre
    rw [List.foldl_cons]
    have hassoc : processed ++ a :: rest = (processed ++ [a]) ++ rest := by
      rw [List.append_assoc]
      rfl
    rw [hassoc] at hpw ⊢
    have hpw1 : (processed ++ [a]).Pairwise (fun x y => ∀ c ∈ cards0,
        ¬(mPred x c = true ∧ mPred y c = true)) := (List.pairwise_append.1 hpw).1
    have hcross : ∀ x ∈ processed, ∀ c ∈ cards0,
        ¬(mPred x c = true ∧ mPred a c = true) := by
      intro x hx
      exact (List.pairwise_append.1 hpw1).2.2 x hx a (List.mem_singleton_self a)
    cases hfind : goFindIdx (mPred a) cards0 with
    | some i =>
      rcases (goFindIdx_eq_some_iff (mPred a) cards0 i).1 hfind with ⟨⟨ca, hca, hpa⟩, -⟩
      have hilt : i < cards0.length := by
        rcases List.getElem?_eq_some_iff.1 hca with ⟨h5, -⟩
        exact h5
      have hnone : processed.find? (hitAt cards0 i) = none := by
        cases hfp : processed.find? (hitAt cards0 i) with
        | none => rfl
        | some b =>
          have hb : b ∈ processed := List.mem_of_find?_eq_some hfp
          have hbi : hitAt cards0 i b = true := List.find?_some hfp
          rw [hitAt, beq_iff_eq] at hbi
          rcases (goFindIdx_eq_some_iff (mPred b) cards0 i).1 hbi with ⟨⟨cb, hcb, hpb⟩, -⟩
          rw [hca] at hcb
          have hcab : ca = cb := Option.some.inj hcb
          exact absurd ⟨hcab ▸ hpb, hpa⟩ (hcross b hb ca (List.getElem?_mem hca))
      have hst1v : moodleProcessOne F C a st = { st with
          updatedOrig := modifyAt st.updatedOrig i (fun c =>
            { c with
              due := (moodleCardFields F C a).due
              dueComplete := false
              description :=
                if ((cards0.get? i).map Card.description).getD "" ≠ mFull F C a
                then mFull F C a else c.description })
          descUpdates :=
            if ((cards0.get? i).map Card.description).getD "" ≠ mFull F C a
            then st.descUpdates + 1 else st.descUpdates } := by
        rw [moodleProcessOne_eq, horig, hfind]
      have hcagd : ((cards0.get? i).map Card.description).getD "" = ca.description := by
        rw [List.get?_eq_getElem?, hca]
        rfl
      have horig1 : (moodleProcessOne F C a st).orig = cards0 := by
        rw [hst1v]
        exact horig
      have hlen1 : (moodleProcessOne F C a st).updatedOrig.length = cards0.length := by
        rw [hst1v]
        show (modifyAt st.updatedOrig i _).length = cards0.length
        rw [modifyAt_length]
        exact hlen
      have hdesc1 : ∀ k, ((moodleProcessOne F C a st).updatedOrig[k]?).map Card.description
          = run1DescAt F C (processed ++ [a]) cards0 k := by
        intro k
        rw [hst1v]
        show ((modifyAt st.updatedOrig i _)[k]?).map Card.description = _
        rw [modifyAt_getElem?]
        by_cases hk : k = i
        · subst hk
          rw [if_pos rfl]
          have hex : ∃ c0, st.updatedOrig[k]? = some c0 := by
            cases hc0 : st.updatedOrig[k]? with
            | some c0 => exact ⟨c0, rfl⟩
            | none =>
              have h6 := List.getElem?_eq_none_iff.1 hc0
              rw [hlen] at h6
              omega
          rcases hex with ⟨c0, hc0⟩
          rw [hc0]
          have hR : run1DescAt F C (processed ++ [a]) cards0 k = some (mFull F C a) := by
            rw [run1DescAt, List.find?_append, hnone, Option.none_or,
              List.find?_cons_of_pos _ (by rw [hitAt, hfind]; exact beq_self_eq_true _)]
          rw [hR]
          show some (if ((cards0.get? k).map Card.description).getD "" ≠ mFull F C a
            then mFull F C a else c0.description) = some (mFull F C a)
          by_cases hch : ((cards0.get? k).map Card.description).getD "" ≠ mFull F C a
          · rw [if_pos hch]
          · rw [if_neg hch]
            rw [Classical.not_not] at hch
            have hc0d : c0.description = ca.description := by
              have h5 := hdesc k
              rw [hc0, run1DescAt, hnone, hca] at h5
              exact Option.some.inj h5
            rw [hc0d, ← hcagd, hch]
        · rw [if_neg hk, hdesc k, run1DescAt, run1DescAt, List.find?_append]
          have hka : hitAt cards0 k a = false := by
            rw [hitAt, hfind, beq_eq_false_iff_ne]
            intro h6
            exact hk (Option.some.inj h6).symm
          rw [List.find?_cons_of_neg _ (by rw [hka]; exact Bool.false_ne_true),
            List.find?_nil, Option.or_none]
      have hcre1 : (moodleProcessOne F C a st).created.map Card.description
          = ((processed ++ [a]).filter
              (fun x => goFindIdx (mPred x) cards0 == none)).map (mFull F C) := by
        rw [hst1v]
        show st.created.map Card.description = _
        have hfa : (goFindIdx (mPred a) cards0 == none) = false := by
          rw [hfind]
          rfl
        rw [List.filter_append, hcre]
        simp [List.filter_cons, hfa]
      exact ih (processed ++ [a]) (moodleProcessOne F C a st) hpw horig1 hlen1 hdesc1 hcre1
    | none =>
      have hst1v : moodleProcessOne F C a st = { st with
          created := st.created
            ++ [⟨"", (moodleCardFields F C a).title, mFull F C a,
                  (moodleCardFields F C a).due, false⟩]
          creates := st.creates + 1 } := by
        rw [moodleProcessOne_eq, horig, hfind]
      have horig1 : (moodleProcessOne F C a st).orig = cards0 := by
        rw [hst1v]
        exact horig
      have hlen1 : (moodleProcessOne F C a st).updatedOrig.length = cards0.length := by
        rw [hst1v]
        exact hlen
      have hdesc1 : ∀ k, ((moodleProcessOne F C a st).updatedOrig[k]?).map Card.description
          = run1DescAt F C (processed ++ [a]) cards0 k := by
        intro k
        rw [hst1v]
        show (st.updatedOrig[k]?).map Card.description = _
        rw [hdesc k, run1DescAt, run1DescAt, List.find?_append]
        have hka : hitAt cards0 k a = false := by
          rw [hitAt, hfind]
          rfl
        rw [List.find?_cons_of_neg _ (by rw [hka]; exact Bool.false_ne_true),
          List.find?_nil, Option.or_none]
      have hcre1 : (moodleProcessOne F C a st).created.map Card.description
          = ((processed ++ [a]).filter
              (fun x => goFindIdx (mPred x) cards0 == none)).map (mFull F C) := by
        rw [hst1v]
        show (st.created ++ [(⟨"", (moodleCardFields F C a).title, mFull F C a,
            (moodleCardFields F C a).due, false⟩ : Card)]).map Card.description = _
        have hfa : (goFindIdx (mPred a) cards0 == none) = true := by
          rw [hfind]
          rfl
        rw [List.map_append, hcre, List.filter_append]
        simp [List.filter_cons, hfa, mFull]
      exact ih (processed ++ [a]) (moodleProcessOne F C a st) hpw horig1 hlen1 hdesc1 hcre1

/-- Run-1 facts, instantiated at the start state. -/
theorem moodleRun_facts (F C : Int → String) (as : List MoodleAssignment) (cards0 : List Card)
    (hC : as.Pairwise (fun x y => ∀ c ∈ cards0, ¬(mPred x c = true ∧ mPred y c = true))) :
    (moodleRun F C as cards0).orig = cards0
    ∧ (moodleRun F C as cards0).updatedOrig.length = cards0.length
    ∧ (∀ k, ((moodleRun F C as cards0).updatedOrig[k]?).map Card.description
        = run1DescAt F C as cards0 k)
    ∧ (moodleRun F C as cards0).created.map Card.description
      = (as.filter (fun x => goFindIdx (mPred x) cards0 == none)).map (mFull F C) := by
  have h := moodleRun_inv F C cards0 as [] (SyncState.init cards0) (by simpa using hC) rfl rfl
    (fun k => by rw [run1DescAt, List.find?_nil]; rfl) rfl
  rw [List.nil_append] at h
  exact h

/-- After run 1, every batch assignment resolves to a card that already
carries exactly its computed description. -/
theorem moodleRun_second_find (F C : Int → String) (as : List MoodleAssignment)
    (cards0 : List Card)
    (hQ : ∀ x ∈ as, (x.atype == "quiz") = false)
    (hP : as.Pairwise (fun x y =>
      goContains (mFull F C y) (moodleMarker x.id) = false
      ∧ goContains (mFull F C x) (moodleMarker y.id) = false))
    (hC : as.Pairwise (fun x y => ∀ c ∈ cards0, ¬(mPred x c = true ∧ mPred y c = true)))
    (a : MoodleAssignment) (ha : a ∈ as) :
    ∃ j, goFindIdx (mPred a) ((moodleRun F C as cards0).cards) = some j
      ∧ (((moodleRun F C as cards0).cards)[j]?).map Card.description
        = some (mFull F C a) := by
  obtain ⟨horig, hlen, hdesc, hcre⟩ := moodleRun_facts F C as cards0 hC
  set U := (moodleRun F C as cards0).updatedOrig with hU
  set K := (moodleRun F C as cards0).created with hK
  have hcards : (moodleRun F C as cards0).cards = U ++ K := rfl
  have hPs : ∀ x ∈ as, ∀ y ∈ as, x ≠ y →
      goContains (mFull F C y) (moodleMarker x.id) = false := by
    intro x hx y hy hxy
    have hsym : Symmetric (fun x y : MoodleAssignment =>
        goContains (mFull F C y) (moodleMarker x.id) = false
        ∧ goContains (mFull F C x) (moodleMarker y.id) = false) := by
      intro u v huv
      exact ⟨huv.2, huv.1⟩
    exact (hP.forall hsym hx hy hxy).1
  have hCs : ∀ x ∈ as, ∀ y ∈ as, x ≠ y → ∀ c ∈ cards0,
      ¬(mPred x c = true ∧ mPred y c = true) := by
    intro x hx y hy hxy
    have hsym : Symmetric (fun x y : MoodleAssignment => ∀ c ∈ cards0,
        ¬(mPred x c = true ∧ mPred y c = true)) := by
      intro u v huv c hc hcon
      exact huv c hc ⟨hcon.2, hcon.1⟩
    exact hC.forall hsym hx hy hxy
  have hUdesc : ∀ j2 c2, U[j2]? = some c2 →
      (∃ b, as.find? (hitAt cards0 j2) = some b ∧ c2.description = mFull F C b)
      ∨ (as.find? (hitAt cards0 j2) = none
          ∧ ∃ cd, cards0[j2]? = some cd ∧ c2.description = cd.description) := by
    intro j2 c2 hc2
    have h5 := hdesc j2
    rw [hc2, run1DescAt] at h5
    cases hfp : as.find? (hitAt cards0 j2) with
    | some b =>
      rw [hfp] at h5
      exact Or.inl ⟨b, rfl, Option.some.inj h5⟩
    | none =>
      rw [hfp] at h5
      cases hcd : cards0[j2]? with
      | some cd =>
        rw [hcd] at h5
        exact Or.inr ⟨rfl, cd, rfl, Option.some.inj h5⟩
      | none =>
        rw [hcd] at h5
        cases h5
  cases hfind : goFindIdx (mPred a) cards0 with
  | some i =>
    rcases (goFindIdx_eq_some_iff _ cards0 i).1 hfind with ⟨⟨ca, hca, hpa⟩, hbef⟩
    have hilt : i < cards0.length := (List.getElem?_eq_some_iff.1 hca).1
    have hiU : i < U.length := by rw [hlen]; exact hilt
    have hsome : (as.find? (hitAt cards0 i)).isSome :=
      List.find?_isSome.2 ⟨a, ha, by rw [hitAt, hfind]; exact beq_self_eq_true _⟩
    rcases Option.isSome_iff_exists.1 hsome with ⟨b, hb⟩
    have hbmem : b ∈ as := List.mem_of_find?_eq_some hb
    have hbi : goFindIdx (mPred b) cards0 = some i := by
      have h8 := List.find?_some hb
      rwa [hitAt, beq_iff_eq] at h8
    have hbeq : mFull F C b = mFull F C a := by
      by_cases hba : b = a
      · rw [hba]
      · rcases (goFindIdx_eq_some_iff _ cards0 i).1 hbi with ⟨⟨cb, hcb, hpb⟩, -⟩
        rw [hca] at hcb
        exact absurd ⟨(Option.some.inj hcb) ▸ hpb, hpa⟩
          (hCs b hbmem a ha hba ca (List.getElem?_mem hca))
    have hUi : ∃ c0, U[i]? = some c0 ∧ c0.description = mFull F C a := by
      have h5 := hdesc i
      rw [run1DescAt, hb] at h5
      cases hc0 : U[i]? with
      | some c0 =>
        rw [hc0] at h5
        exact ⟨c0, rfl, (Option.some.inj h5).trans hbeq⟩
      | none =>
        rw [hc0] at h5
        cases h5
    rcases hUi with ⟨c0, hc0, hc0d⟩
    refine ⟨i, ?_, ?_⟩
    · rw [hcards]
      apply (goFindIdx_eq_some_iff _ _ i).2
      constructor
      · refine ⟨c0, ?_, ?_⟩
        · rw [List.getElem?_append_left hiU]
          exact hc0
        · rw [mPred, hc0d]
          exact mFull_marker F C a (hQ a ha)
      · intro j hj c2 hc2
        have hjU : j < U.length := Nat.lt_trans hj hiU
        rw [List.getElem?_append_left hjU] at hc2
        rcases hUdesc j c2 hc2 with ⟨b2, hb2, hd2⟩ | ⟨-, cd, hcd, hd2⟩
        · have hb2mem := List.mem_of_find?_eq_some hb2
          have hb2j : goFindIdx (mPred b2) cards0 = some j := by
            have h8 := List.find?_some hb2
            rwa [hitAt, beq_iff_eq] at h8
          have hb2a : b2 ≠ a := by
            intro h7
            rw [h7, hfind] at hb2j
            have := Option.some.inj hb2j
            omega
          rw [mPred, hd2]
          exact hPs a ha b2 hb2mem (Ne.symm hb2a)
        · rw [mPred_congr a c2 cd hd2]
          exact hbef j hj cd hcd
    · rw [hcards, List.getElem?_append_left hiU, hc0]
      show some c0.description = some (mFull F C a)
      rw [hc0d]
  | none =>
    have hnf : ∀ c ∈ cards0, mPred a c = false := (goFindIdx_eq_none_iff _ cards0).1 hfind
    have hanf : (goFindIdx (mPred a) cards0 == none) = true := by
      rw [hfind]
      rfl
    have hafa : a ∈ as.filter (fun x => goFindIdx (mPred x) cards0 == none) :=
      List.mem_filter.2 ⟨ha, hanf⟩
    have hsome2 : goFindIdx (fun b => decide (b = a))
        (as.filter (fun x => goFindIdx (mPred x) cards0 == none)) ≠ none := by
      intro h7
      have h8 := (goFindIdx_eq_none_iff _ _).1 h7 a hafa
      simp at h8
    rcases Option.ne_none_iff_exists'.1 hsome2 with ⟨j2, hj2⟩
    rcases (goFindIdx_eq_some_iff _ _ j2).1 hj2 with ⟨⟨b0, hb0, hb0a⟩, hbef2⟩
    have hfa2 : (as.filter (fun x => goFindIdx (mPred x) cards0 == none))[j2]? = some a :=
      (of_decide_eq_true hb0a) ▸ hb0
    have hKd : ∀ m : Nat, (K[m]?).map Card.description
        = ((as.filter (fun x => goFindIdx (mPred x) cards0 == none))[m]?).map (mFull F C) := by
      intro m
      have h8 := congrArg (fun l : List String => l[m]?) hcre
      simpa using h8
    have hKj2 : ∃ ck, K[j2]? = some ck ∧ ck.description = mFull F C a := by
      have h5 := hKd j2
      rw [hfa2] at h5
      cases hck : K[j2]? with
      | some ck =>
        rw [hck] at h5
        exact ⟨ck, rfl, Option.some.inj h5⟩
      | none =>
        rw [hck] at h5
        cases h5
    rcases hKj2 with ⟨ck, hck, hckd⟩
    refine ⟨U.length + j2, ?_, ?_⟩
    · rw [hcards]
      apply (goFindIdx_eq_some_iff _ _ _).2
      constructor
      · refine ⟨ck, ?_, ?_⟩
        · rw [List.getElem?_append_right (Nat.le_add_right _ _)]
          simpa using hck
        · rw [mPred, hckd]
          exact mFull_marker F C a (hQ a ha)
      · intro j hj c2 hc2
        by_cases hjU : j < U.length
        · rw [List.getElem?_append_left hjU] at hc2
          rcases hUdesc j c2 hc2 with ⟨b2, hb2, hd2⟩ | ⟨-, cd, hcd, hd2⟩
          · have hb2mem := List.mem_of_find?_eq_some hb2
            have hb2j : goFindIdx (mPred b2) cards0 = some j := by
              have h8 := List.find?_some hb2
              rwa [hitAt, beq_iff_eq] at h8
            have hb2a : b2 ≠ a := by
              intro h7
              rw [h7, hfind] at hb2j
              cases hb2j
            rw [mPred, hd2]
            exact hPs a ha b2 hb2mem (Ne.symm hb2a)
          · rw [mPred_congr a c2 cd hd2]
            exact hnf cd (List.getElem?_mem hcd)
        · push_neg at hjU
          rw [List.getElem?_append_right hjU] at hc2
          have hmlt : j - U.length < j2 := by omega
          have h5 := hKd (j - U.length)
          rw [hc2] at h5
          cases hfm : (as.filter (fun x => goFindIdx (mPred x) cards0 == none))[j - U.length]? with
          | some b2 =>
            rw [hfm] at h5
            have hd2 : c2.description = mFull F C b2 := Option.some.inj h5
            have hb2a : b2 ≠ a := of_decide_eq_false (hbef2 (j - U.length) hmlt b2 hfm)
            have hb2mem : b2 ∈ as := (List.mem_filter.1 (List.getElem?_mem hfm)).1
            rw [mPred, hd2]
            exact hPs a ha b2 hb2mem (Ne.symm hb2a)
          | none =>
            rw [hfm] at h5
            cases h5
    · rw [hcards, List.getElem?_append_right (Nat.le_add_right _ _)]
      have h9 : U.length + j2 - U.length = j2 := by omega
      rw [h9, hck]
      show some ck.description = some (mFull F C a)
      rw [hckd]

/-- A Moodle run over a snapshot in which every assignment already
resolves to a card carrying its computed description performs no
description update and creates nothing. -/
theorem moodleRun_counters (F C : Int → String) (S1 : List Card) :
    ∀ (as2 : List MoodleAssignment) (st : SyncState),
      st.orig = S1 →
      (∀ a ∈ as2, ∃ j, goFindIdx (mPred a) S1 = some j
        ∧ (S1[j]?).map Card.description = some (mFull F C a)) →
      (as2.foldl (fun s x => moodleProcessOne F C x s) st).descUpdates = st.descUpdates
      ∧ (as2.foldl (fun s x => moodleProcessOne F C x s) st).creates = st.creates := by
  intro as2
  induction as2 with
  | nil =>
    intro st _ _
    exact ⟨rfl, rfl⟩
  | cons a rest ih =>
    intro st horig hE
    rw [List.foldl_cons]
    rcases hE a (List.mem_cons_self a rest) with ⟨j, hj, hdj⟩
    have hcond : ¬(((S1.get? j).map Card.description).getD "" ≠ mFull F C a) := by
      rw [List.get?_eq_getElem?, hdj]
      exact fun h => h rfl
    have hst1v : moodleProcessOne F C a st = { st with
        updatedOrig := modifyAt st.updatedOrig j (fun c =>
          { c with
            due := (moodleCardFields F C a).due
            dueComplete := false
            description := c.description }) } := by
      rw [moodleProcessOne_eq, horig, hj]
      simp only [if_neg hcond]
    rcases ih (moodleProcessOne F C a st) (by rw [hst1v]; exact horig)
      (fun x hx => hE x (List.mem_cons_of_mem a hx)) with ⟨e1, e2⟩
    constructor
    · rw [e1, hst1v]
    · rw [e2, hst1v]

/-- `modifyAt` with a description-preserving update fixes the projected
description list. -/
theorem modifyAt_map_desc (l : List Card) (i : Nat) (f : Card → Card)
    (h : ∀ c, (f c).description = c.description) :
    (modifyAt l i f).map Card.description = l.map Card.description := by
  induction l generalizing i with
  | nil => rfl
  | cons c t ih =>
    cases i with
    | zero => simp [modifyAt, h c]
    | succ k => simp [modifyAt, ih k]

/-- Run-1 characterization of the Canvas sync loop: the loop never touches
a description of an existing card, and created cards carry the computed
descriptions of the unmatched assignments. -/
theorem canvasRun_inv (P : String → Option Int) (now : Int) (CN : Int → String)
    (SB : Int → Option CanvasSubmission) (cards0 : List Card) :
    ∀ (rest processed : List CanvasAssignment) (st : SyncState),
      st.orig = cards0 →
      st.updatedOrig.map Card.description = cards0.map Card.description →
      st.created.map Card.description
        = (processed.filter (fun x => goFindIdx (cPred x) cards0 == none)).map
            (cFull P now CN SB) →
      (rest.foldl (fun s x => canvasProcessOne P now CN SB x s) st).orig = cards0
      ∧ (rest.foldl (fun s x => canvasProcessOne P now CN SB x s) st).updatedOrig.map
          Card.description = cards0.map Card.description
      ∧ (rest.foldl (fun s x => canvasProcessOne P now CN SB x s) st).created.map
          Card.description
        = ((processed ++ rest).filter (fun x => goFindIdx (cPred x) cards0 == none)).map
            (cFull P now CN SB) := by
  intro rest
  induction rest with
  | nil =>
    intro processed st horig hmap hcre
    rw [List.foldl_nil, List.append_nil]
    exact ⟨horig, hmap, hcre⟩
  | cons a rest ih =>
    intro processed st horig hmap hcre
    rw [List.foldl_cons]
    have hassoc : processed ++ a :: rest = (processed ++ [a]) ++ rest := by
      rw [List.append_assoc]
      rfl
    rw [hassoc]
    cases hfind : goFindIdx (cPred a) cards0 with
    | some i =>
      have hst1v : canvasProcessOne P now CN SB a st = { st with
          updatedOrig := modifyAt st.updatedOrig i (fun c =>
            { c with
              due := (canvasCardFields P now (CN a.courseID) a (SB a.id)).due
              dueComplete := false }) } := by
        rw [canvasProcessOne_eq, horig, hfind]
      refine ih (processed ++ [a]) _ (by rw [hst1v]; exact horig) ?_ ?_
      · rw [hst1v]
        show (modifyAt st.updatedOrig i (fun c =>
          { c with
            due := (canvasCardFields P now (CN a.courseID) a (SB a.id)).due
            dueComplete := false })).map Card.description = _
        rw [modifyAt_map_desc st.updatedOrig i (fun c =>
          { c with
            due := (canvasCardFields P now (CN a.courseID) a (SB a.id)).due
            dueComplete := false }) (fun c => rfl)]
        exact hmap
      · rw [hst1v]
        show st.created.map Card.description = _
        have hfa : (goFindIdx (cPred a) cards0 == none) = false := by
          rw [hfind]
          rfl
        rw [List.filter_append, hcre]
        simp [List.filter_cons, hfa]
    | none =>
      have hst1v : canvasProcessOne P now CN SB a st = { st with
          created := st.created
            ++ [⟨"", (canvasCardFields P now (CN a.courseID) a (SB a.id)).title,
                  cFull P now CN SB a,
                  (canvasCardFields P now (CN a.courseID) a (SB a.id)).due, false⟩]
          creates := st.creates + 1 } := by
        rw [canvasProcessOne_eq, horig, hfind]
      refine ih (processed ++ [a]) _ (by rw [hst1v]; exact horig) (by rw [hst1v]; exact hmap) ?_
      rw [hst1v]
      show (st.created ++ [(⟨"", (canvasCardFields P now (CN a.courseID) a (SB a.id)).title,
          cFull P now CN SB a,
          (canvasCardFields P now (CN a.courseID) a (SB a.id)).due, false⟩ : Card)]).map
        Card.description = _
      have hfa : (goFindIdx (cPred a) cards0 == none) = true := by
        rw [hfind]
        rfl
      rw [List.map_append, hcre, List.filter_append]
      simp [List.filter_cons, hfa]

/-- A Canvas run in which every assignment finds an existing marker match
creates nothing. -/
theorem canvasRun_counters (P : String → Option Int) (now : Int) (CN : Int → String)
    (SB : Int → Option CanvasSubmission) (S1 : List Card) :
    ∀ (cas2 : List CanvasAssignment) (st : SyncState),
      st.orig = S1 →
      (∀ a ∈ cas2, goFindIdx (cPred a) S1 ≠ none) →
      (cas2.foldl (fun s x => canvasProcessOne P now CN SB x s) st).creates = st.creates := by
  intro cas2
  induction cas2 with
  | nil =>
    intro st _ _
    rfl
  | cons a rest ih =>
    intro st horig hE
    rw [List.foldl_cons]
    cases hfind : goFindIdx (cPred a) S1 with
    | none => exact absurd hfind (hE a (List.mem_cons_self a rest))
    | some i =>
      have hst1v : canvasProcessOne P now CN SB a st = { st with
          updatedOrig := modifyAt st.updatedOrig i (fun c =>
            { c with
              due := (canvasCardFields P now (CN a.courseID) a (SB a.id)).due
              dueComplete := false }) } := by
        rw [canvasProcessOne_eq, horig, hfind]
      rw [ih (canvasProcessOne P now CN SB a st) (by rw [hst1v]; exact horig)
        (fun x hx => hE x (List.mem_cons_of_mem a hx)), hst1v]

/-- After a Canvas run, every batch assignment has a marker match on the
board: descriptions of existing cards were never touched, and unmatched
assignments produced cards embedding their own markers. -/
theorem canvasRun_second_find (P : String → Option Int) (now : Int) (CN : Int → String)
    (SB : Int → Option CanvasSubmission) (cas : List CanvasAssignment) (cc0 : List Card)
    (a : CanvasAssignment) (ha : a ∈ cas) :
    goFindIdx (cPred a) ((canvasRun P now CN SB cas cc0).cards) ≠ none := by
  obtain ⟨horig, hmap, hcre⟩ := canvasRun_inv P now CN SB cc0 cas [] (SyncState.init cc0)
    rfl rfl rfl
  rw [List.nil_append] at hcre
  have hrun : (cas.foldl (fun s x => canvasProcessOne P now CN SB x s) (SyncState.init cc0))
      = canvasRun P now CN SB cas cc0 := rfl
  rw [hrun] at horig hmap hcre
  intro hnone
  have hall := (goFindIdx_eq_none_iff (cPred a) _).1 hnone
  cases hfind : goFindIdx (cPred a) cc0 with
  | some i =>
    rcases (goFindIdx_eq_some_iff _ cc0 i).1 hfind with ⟨⟨ca, hca, hpa⟩, -⟩
    have h5 := congrArg (fun l : List String => l[i]?) hmap
    simp only [List.getElem?_map] at h5
    rw [hca] at h5
    cases hc0 : ((canvasRun P now CN SB cas cc0).updatedOrig)[i]? with
    | some c0 =>
      rw [hc0] at h5
      have hd : c0.description = ca.description := Option.some.inj h5
      have hc0mem : c0 ∈ (canvasRun P now CN SB cas cc0).cards :=
        List.mem_append_left _ (List.getElem?_mem hc0)
      have := hall c0 hc0mem
      rw [cPred_congr a c0 ca hd, hpa] at this
      cases this
    | none =>
      rw [hc0] at h5
      cases h5
  | none =>
    have hanf : (goFindIdx (cPred a) cc0 == none) = true := by
      rw [hfind]
      rfl
    have hafa : a ∈ cas.filter (fun x => goFindIdx (cPred x) cc0 == none) :=
      List.mem_filter.2 ⟨ha, hanf⟩
    have hmem : cFull P now CN SB a
        ∈ ((canvasRun P now CN SB cas cc0).created).map Card.description := by
      rw [hcre]
      exact List.mem_map_of_mem _ hafa
    rcases List.mem_map.1 hmem with ⟨c0, hc0mem, hd⟩
    have hc0S1 : c0 ∈ (canvasRun P now CN SB cas cc0).cards :=
      List.mem_append_right _ hc0mem
    have h6 := hall c0 hc0S1
    rw [cPred, hd, cFull_marker] at h6
    cases h6

set_option maxRecDepth 20000 in
/-- C5 (counterexample): second-run idempotence fails as universally
stated.  With assignments 1234 and 123 in one batch over an empty board,
the marker of 123 is a substring of the card created for 1234, so the
second run finds the wrong card first and rewrites its description.  And
a quiz item embeds a `"Moodle Quiz ID:"` line that the finder (which
searches `"Moodle Assignment ID:"`) can never match, so a second run
creates a duplicate card. -/
theorem reconciler_counterexample :
    (moodleRun (fun u => toString u) (fun _ => "Math")
      [⟨1234, "HW", "intro", 1, 100, "u", "assignment"⟩,
       ⟨123, "HW2", "intro", 1, 100, "u", "assignment"⟩]
      ((moodleRun (fun u => toString u) (fun _ => "Math")
        [⟨1234, "HW", "intro", 1, 100, "u", "assignment"⟩,
         ⟨123, "HW2", "intro", 1, 100, "u", "assignment"⟩] []).cards)).descUpdates = 1
    ∧ (moodleRun (fun u => toString u) (fun _ => "Math")
        [⟨5, "Q", "i", 1, 100, "u", "quiz"⟩]
        ((moodleRun (fun u => toString u) (fun _ => "Math")
          [⟨5, "Q", "i", 1, 100, "u", "quiz"⟩] []).cards)).creates = 1 := by
  constructor
  · decide
  · decide

/-- C5 (amended): the second run over the first run's board performs zero
description updates and zero creates, provided the batch holds no quiz
items, no assignment's marker occurs inside another assignment's computed
description, and no snapshot card's description contains the markers of
two distinct batch assignments.  The Canvas path creates zero cards on
the second run unconditionally (it never updates descriptions at all). -/
theorem reconciler_second_run_idempotent (F C : Int → String)
    (as : List MoodleAssignment) (cards0 : List Card)
    (hQ : ∀ x ∈ as, (x.atype == "quiz") = false)
    (hP : as.Pairwise (fun x y =>
      goContains (mFull F C y) (moodleMarker x.id) = false
      ∧ goContains (mFull F C x) (moodleMarker y.id) = false))
    (hC : as.Pairwise (fun x y => ∀ c ∈ cards0,
      ¬(mPred x c = true ∧ mPred y c = true))) :
    ((moodleRun F C as (moodleRun F C as cards0).cards).descUpdates = 0
      ∧ (moodleRun F C as (moodleRun F C as cards0).cards).creates = 0)
    ∧ ∀ (P : String → Option Int) (now : Int) (CN : Int → String)
        (SB : Int → Option CanvasSubmission) (cas : List CanvasAssignment)
        (cc0 : List Card),
        (canvasRun P now CN SB cas (canvasRun P now CN SB cas cc0).cards).creates = 0 := by
  constructor
  · have hE := moodleRun_second_find F C as cards0 hQ hP hC
    have h := moodleRun_counters F C ((moodleRun F C as cards0).cards) as
      (SyncState.init ((moodleRun F C as cards0).cards)) rfl hE
    exact h
  · intro P now CN SB cas cc0
    have hE : ∀ a ∈ cas,
        goFindIdx (cPred a) ((canvasRun P now CN SB cas cc0).cards) ≠ none :=
      fun a ha => canvasRun_second_find P now CN SB cas cc0 a ha
    exact canvasRun_counters P now CN SB ((canvasRun P now CN SB cas cc0).cards) cas
      (SyncState.init ((canvasRun P now CN SB cas cc0).cards)) rfl hE

set_option maxRecDepth 20000 in
/-- C5 witness: a two-assignment batch with non-overlapping markers over
an empty board, run through the theorem. -/
theorem reconciler_second_run_idempotent_witness :
    ((∀ x ∈ ([⟨7, "HW", "intro", 1, 100, "u", "assignment"⟩,
        ⟨8, "HW2", "intro", 1, 100, "u", "assignment"⟩] : List MoodleAssignment),
        (x.atype == "quiz") = false)
      ∧ ([⟨7, "HW", "intro", 1, 100, "u", "assignment"⟩,
          ⟨8, "HW2", "intro", 1, 100, "u", "assignment"⟩] : List MoodleAssignment).Pairwise
          (fun x y =>
            goContains (mFull (fun u => toString u) (fun _ => "Math") y)
              (moodleMarker x.id) = false
            ∧ goContains (mFull (fun u => toString u) (fun _ => "Math") x)
              (moodleMarker y.id) = false))
    ∧ (moodleRun (fun u => toString u) (fun _ => "Math")
        [⟨7, "HW", "intro", 1, 100, "u", "assignment"⟩,
         ⟨8, "HW2", "intro", 1, 100, "u", "assignment"⟩]
        ((moodleRun (fun u => toString u) (fun _ => "Math")
          [⟨7, "HW", "intro", 1, 100, "u", "assignment"⟩,
           ⟨8, "HW2", "intro", 1, 100, "u", "assignment"⟩] []).cards)).descUpdates = 0
    ∧ (canvasRun (fun _ => none) 0 (fun _ => "Bio") (fun _ => none)
        [⟨9, "Essay", "", "", 1, "u"⟩]
        ((canvasRun (fun _ => none) 0 (fun _ => "Bio") (fun _ => none)
          [⟨9, "Essay", "", "", 1, "u"⟩] []).cards)).creates = 0 := by
  have hQ : ∀ x ∈ ([⟨7, "HW", "intro", 1, 100, "u", "assignment"⟩,
      ⟨8, "HW2", "intro", 1, 100, "u", "assignment"⟩] : List MoodleAssignment),
      (x.atype == "quiz") = false := by decide
  have hP : ([⟨7, "HW", "intro", 1, 100, "u", "assignment"⟩,
      ⟨8, "HW2", "intro", 1, 100, "u", "assignment"⟩] : List MoodleAssignment).Pairwise
      (fun x y =>
        goContains (mFull (fun u => toString u) (fun _ => "Math") y)
          (moodleMarker x.id) = false
        ∧ goContains (mFull (fun u => toString u) (fun _ => "Math") x)
          (moodleMarker y.id) = false) := by decide
  have hC : ([⟨7, "HW", "intro", 1, 100, "u", "assignment"⟩,
      ⟨8, "HW2", "intro", 1, 100, "u", "assignment"⟩] : List MoodleAssignment).Pairwise
      (fun x y => ∀ c ∈ ([] : List Card),
        ¬(mPred x c = true ∧ mPred y c = true)) := by
    constructor
    · intro y hy
      rcases List.mem_singleton.1 hy with rfl
      intro c hc
      cases hc
    · constructor
      · intro y hy
        cases hy
      · constructor
  have h := reconciler_second_run_idempotent (fun u => toString u) (fun _ => "Math")
    [⟨7, "HW", "intro", 1, 100, "u", "assignment"⟩,
     ⟨8, "HW2", "intro", 1, 100, "u", "assignment"⟩] [] hQ hP hC
  exact ⟨⟨hQ, hP⟩, h.1.1,
    h.2 (fun _ => none) 0 (fun _ => "Bio") (fun _ => none) [⟨9, "Essay", "", "", 1, "u"⟩] []⟩

/-! ## C3: due-date sort and stability -/

/-- C3 (supporting theorem): `SortCardsByDueDate` delegates the ordering to
Go `sort.Slice` with the `cardLess` comparator, and `sort.Slice` documents
only that the result is ordered consistently with the comparator — it is
explicitly not guaranteed to be stable.  For the 13-card failing input
(12 undated cards followed by one dated card, exceeding the insertion-sort
cutoff) both lists below satisfy that full documented contract — each is a
permutation of the input and sorted under `cardLess` — yet they disagree
on the relative order of the undated, equal-key cards.  The second list is
the order Go 1.19+ pdqsort actually produces (pivot and partition swaps
displace u6, u0 and u1), so the claimed stability does not hold of the
code. -/
theorem sortSlice_contract_admits_unstable :
    (sortedByCardLess [⟨"d", "", "", some 0, false⟩,
        ⟨"u0", "", "", none, false⟩, ⟨"u1", "", "", none, false⟩,
        ⟨"u2", "", "", none, false⟩, ⟨"u3", "", "", none, false⟩,
        ⟨"u4", "", "", none, false⟩, ⟨"u5", "", "", none, false⟩,
        ⟨"u6", "", "", none, false⟩, ⟨"u7", "", "", none, false⟩,
        ⟨"u8", "", "", none, false⟩, ⟨"u9", "", "", none, false⟩,
        ⟨"u10", "", "", none, false⟩, ⟨"u11", "", "", none, false⟩] = true)
    ∧ (sortedByCardLess [⟨"d", "", "", some 0, false⟩,
        ⟨"u6", "", "", none, false⟩, ⟨"u2", "", "", none, false⟩,
        ⟨"u3", "", "", none, false⟩, ⟨"u4", "", "", none, false⟩,
        ⟨"u5", "", "", none, false⟩, ⟨"u0", "", "", none, false⟩,
        ⟨"u7", "", "", none, false⟩, ⟨"u8", "", "", none, false⟩,
        ⟨"u9", "", "", none, false⟩, ⟨"u10", "", "", none, false⟩,
        ⟨"u11", "", "", none, false⟩, ⟨"u1", "", "", none, false⟩] = true)
    ∧ ([⟨"d", "", "", some 0, false⟩,
        ⟨"u6", "", "", none, false⟩, ⟨"u2", "", "", none, false⟩,
        ⟨"u3", "", "", none, false⟩, ⟨"u4", "", "", none, false⟩,
        ⟨"u5", "", "", none, false⟩, ⟨"u0", "", "", none, false⟩,
        ⟨"u7", "", "", none, false⟩, ⟨"u8", "", "", none, false⟩,
        ⟨"u9", "", "", none, false⟩, ⟨"u10", "", "", none, false⟩,
        ⟨"u11", "", "", none, false⟩, ⟨"u1", "", "", none, false⟩] : List Card).Perm
        [⟨"d", "", "", some 0, false⟩,
        ⟨"u0", "", "", none, false⟩, ⟨"u1", "", "", none, false⟩,
        ⟨"u2", "", "", none, false⟩, ⟨"u3", "", "", none, false⟩,
        ⟨"u4", "", "", none, false⟩, ⟨"u5", "", "", none, false⟩,
        ⟨"u6", "", "", none, false⟩, ⟨"u7", "", "", none, false⟩,
        ⟨"u8", "", "", none, false⟩, ⟨"u9", "", "", none, false⟩,
        ⟨"u10", "", "", none, false⟩, ⟨"u11", "", "", none, false⟩]
    ∧ ([⟨"d", "", "", some 0, false⟩,
        ⟨"u6", "", "", none, false⟩, ⟨"u2", "", "", none, false⟩,
        ⟨"u3", "", "", none, false⟩, ⟨"u4", "", "", none, false⟩,
        ⟨"u5", "", "", none, false⟩, ⟨"u0", "", "", none, false⟩,
        ⟨"u7", "", "", none, false⟩, ⟨"u8", "", "", none, false⟩,
        ⟨"u9", "", "", none, false⟩, ⟨"u10", "", "", none, false⟩,
        ⟨"u11", "", "", none, false⟩, ⟨"u1", "", "", none, false⟩] : List Card)
      ≠ [⟨"d", "", "", some 0, false⟩,
        ⟨"u0", "", "", none, false⟩, ⟨"u1", "", "", none, false⟩,
        ⟨"u2", "", "", none, false⟩, ⟨"u3", "", "", none, false⟩,
        ⟨"u4", "", "", none, false⟩, ⟨"u5", "", "", none, false⟩,
        ⟨"u6", "", "", none, false⟩, ⟨"u7", "", "", none, false⟩,
        ⟨"u8", "", "", none, false⟩, ⟨"u9", "", "", none, false⟩,
        ⟨"u10", "", "", none, false⟩, ⟨"u11", "", "", none, false⟩] := by
  refine ⟨by decide, by decide, by decide, by decide⟩

end TrelloReset
